import Mathlib

/-!
Verification of the molty-apps leaderboard, achievement and backfill core.

The TypeScript sources are shallowly embedded: each `def` below mirrors one
function of the repository (the doc comment names the file).  JavaScript
machine numbers that only ever hold integers are modelled as `Int`/`Nat`;
the one genuinely fractional value (`dailyAverageSeconds`) and the inputs of
`formatDuration` are modelled as `ℚ` plus explicit non-finite markers.
`Array.prototype.sort(cmp)` (ECMAScript: stable, sorted w.r.t. a consistent
comparator) is modelled by `List.insertionSort`, which is stable and sorted,
hence extensionally equal to the JS sort for the consistent comparators used
here.  `String.prototype.localeCompare` is modelled as lexicographic
comparison of code points, following the spec's reading of the tie-break as
"pure lexical".  JS `Map`s are modelled as association lists with the
`Map.set`/`Map.get` semantics (insertion order preserved, set-on-existing-key
updates in place), JS `Set`s as first-occurrence deduplicated lists.
-/

/-! ## JavaScript-style primitives -/

/-- Lexicographic `≤` on code-point lists; model of `a.localeCompare(b) <= 0`. -/
def charsLe : List Char → List Char → Bool
  | [], _ => true
  | _ :: _, [] => false
  | a :: as, b :: bs =>
    if a.toNat < b.toNat then true
    else if b.toNat < a.toNat then false
    else charsLe as bs

/-- Model of `a.localeCompare(b) <= 0` on strings. -/
def strLe (a b : String) : Bool := charsLe a.data b.data

theorem charsLe_total : ∀ as bs, charsLe as bs = true ∨ charsLe bs as = true := by
  intro as
  induction as with
  | nil => intro bs; left; rfl
  | cons a as ih =>
    intro bs
    cases bs with
    | nil => right; rfl
    | cons b bs =>
      simp only [charsLe]
      rcases Nat.lt_trichotomy a.toNat b.toNat with h | h | h
      · left; simp [h]
      · have h' : ¬ a.toNat < b.toNat := by omega
        have h'' : ¬ b.toNat < a.toNat := by omega
        rcases ih bs with hc | hc
        · left; simp [h', h'', hc]
        · right; simp [h', h'', hc]
      · right; simp [h, Nat.lt_asymm h]

theorem charsLe_trans :
    ∀ as bs cs, charsLe as bs = true → charsLe bs cs = true → charsLe as cs = true := by
  intro as
  induction as with
  | nil => intro bs cs _ _; rfl
  | cons a as ih =>
    intro bs cs hab hbc
    cases bs with
    | nil => simp [charsLe] at hab
    | cons b bs =>
      cases cs with
      | nil => simp [charsLe] at hbc
      | cons c cs =>
        simp only [charsLe] at hab hbc ⊢
        by_cases hab1 : a.toNat < b.toNat
        · by_cases hbc1 : b.toNat < c.toNat
          · simp [Nat.lt_trans hab1 hbc1]
          · by_cases hbc2 : c.toNat < b.toNat
            · simp [hbc1, hbc2] at hbc
            · have : b.toNat = c.toNat := by omega
              simp [this ▸ hab1]
        · by_cases hab2 : b.toNat < a.toNat
          · simp [hab1, hab2] at hab
          · have hone : a.toNat = b.toNat := by omega
            by_cases hbc1 : b.toNat < c.toNat
            · simp [hone ▸ hbc1]
            · by_cases hbc2 : c.toNat < b.toNat
              · simp [hbc1, hbc2] at hbc
              · have htwo : b.toNat = c.toNat := by omega
                have hac1 : ¬ a.toNat < c.toNat := by omega
                have hac2 : ¬ c.toNat < a.toNat := by omega
                simp [hab1, hab2] at hab
                simp [hbc1, hbc2] at hbc
                simp [hac1, hac2, ih bs cs hab hbc]

theorem charsLe_antisymm :
    ∀ as bs, charsLe as bs = true → charsLe bs as = true → as = bs := by
  intro as
  induction as with
  | nil =>
    intro bs _ hba
    cases bs with
    | nil => rfl
    | cons b bs => simp [charsLe] at hba
  | cons a as ih =>
    intro bs hab hba
    cases bs with
    | nil => simp [charsLe] at hab
    | cons b bs =>
      simp only [charsLe] at hab hba
      by_cases h1 : a.toNat < b.toNat
      · simp [h1, Nat.lt_asymm h1] at hba
      · by_cases h2 : b.toNat < a.toNat
        · simp [h1, h2] at hab
        · have hval : a.toNat = b.toNat := by omega
          have hchar : a = b := Char.eq_of_val_eq (UInt32.ext hval)
          simp [h1, h2] at hab hba
          rw [hchar, ih bs hab hba]

theorem string_eq_of_data_eq {a b : String} (h : a.data = b.data) : a = b := by
  cases a; cases b; exact congrArg String.mk h

theorem strLe_total (a b : String) : strLe a b = true ∨ strLe b a = true :=
  charsLe_total a.data b.data

theorem strLe_trans {a b c : String} (hab : strLe a b = true) (hbc : strLe b c = true) :
    strLe a c = true :=
  charsLe_trans a.data b.data c.data hab hbc

theorem strLe_antisymm {a b : String} (hab : strLe a b = true) (hba : strLe b a = true) :
    a = b :=
  string_eq_of_data_eq (charsLe_antisymm a.data b.data hab hba)

theorem strLe_refl (a : String) : strLe a a = true := by
  rcases strLe_total a a with h | h <;> exact h

/-- JS `Map.get` on an association list (first matching key). -/
def getJs {κ β : Type} [DecidableEq κ] (m : List (κ × β)) (k : κ) : Option β :=
  (m.find? (fun kv => kv.1 = k)).map (fun kv => kv.2)

/-- JS `Map.set`: update the value in place at the first (only) occurrence of
the key, else append. -/
def setJs {κ β : Type} [DecidableEq κ] : List (κ × β) → κ → β → List (κ × β)
  | [], k, v => [(k, v)]
  | (k0, v0) :: rest, k, v =>
    if k0 = k then (k, v) :: rest else (k0, v0) :: setJs rest k v

/-- Helper of `dedupFirst`: `seen` is the set of already-emitted elements. -/
def dedupFirstAux {α : Type} [DecidableEq α] : List α → List α → List α
  | [], _ => []
  | a :: l, seen =>
    if a ∈ seen then dedupFirstAux l seen else a :: dedupFirstAux l (a :: seen)

/-- JS `Set` built from a list: keeps the first occurrence of each element. -/
def dedupFirst {α : Type} [DecidableEq α] (l : List α) : List α :=
  dedupFirstAux l []

/-- `Math.max(...)` spread over a non-empty list (head as the seed). -/
def listMaxInt : List Int → Int
  | [] => 0
  | x :: xs => xs.foldl max x

/-! ## Shared leaderboard types (packages/shared `types.ts`) -/

inductive DailyStatStatus where
  | ok
  | isPrivate
  | notFound
  | error
deriving DecidableEq, Repr

/-- `DailyStat` of the shared package (`types.ts`). -/
structure DailyStat where
  username : String
  honorTitle : Option String := none
  totalSeconds : Int
  status : DailyStatStatus
  errorMsg : Option String := none
deriving DecidableEq, Repr

/-- `LeaderboardEntry`: a `DailyStat` plus derived `rank` and `deltaSeconds`. -/
structure LeaderboardEntry extends DailyStat where
  rank : Option Nat
  deltaSeconds : Int
deriving DecidableEq, Repr

/-! ## Ranking engine (packages/shared `leaderboard.ts`) -/

/-- `statusOrder` record: `ok` 0, `private` 1, `not_found` 2, `error` 3. -/
def statusOrder : DailyStatStatus → Nat
  | .ok => 0
  | .isPrivate => 1
  | .notFound => 2
  | .error => 3

/-- The `sortStats` comparator as a `≤` test: `cmp(a, b) <= 0` with
`cmp` comparing status rank ascending, then `totalSeconds` descending, then
`username.localeCompare` ascending. -/
def statLe (a b : DailyStat) : Bool :=
  if statusOrder a.status ≠ statusOrder b.status then
    decide (statusOrder a.status < statusOrder b.status)
  else if a.totalSeconds ≠ b.totalSeconds then
    decide (b.totalSeconds < a.totalSeconds)
  else
    strLe a.username b.username

def StatLE (a b : DailyStat) : Prop := statLe a b = true

instance : DecidableRel StatLE := fun a b => decEq (statLe a b) true

theorem statLe_iff (a b : DailyStat) :
    statLe a b = true ↔
      statusOrder a.status < statusOrder b.status ∨
      (statusOrder a.status = statusOrder b.status ∧
        (b.totalSeconds < a.totalSeconds ∨
          (a.totalSeconds = b.totalSeconds ∧ strLe a.username b.username = true))) := by
  unfold statLe
  split_ifs with h1 h2
  · constructor
    · intro h
      exact Or.inl (of_decide_eq_true h)
    · rintro (h | ⟨he, _⟩)
      · exact decide_eq_true h
      · exact absurd he h1
  · push_neg at h1
    constructor
    · intro h
      exact Or.inr ⟨h1, Or.inl (of_decide_eq_true h)⟩
    · rintro (h | ⟨_, hs | ⟨he, _⟩⟩)
      · exact absurd h1 (Nat.ne_of_lt h)
      · exact decide_eq_true hs
      · exact absurd he h2
  · push_neg at h1 h2
    constructor
    · intro h
      exact Or.inr ⟨h1, Or.inr ⟨h2, h⟩⟩
    · rintro (h | ⟨_, hs | ⟨_, hu⟩⟩)
      · exact absurd h1 (Nat.ne_of_lt h)
      · exact absurd hs (by rw [h2]; exact lt_irrefl _)
      · exact hu

instance : IsTotal DailyStat StatLE where
  total a b := by
    unfold StatLE
    rw [statLe_iff, statLe_iff]
    rcases Nat.lt_trichotomy (statusOrder a.status) (statusOrder b.status) with h | h | h
    · exact Or.inl (Or.inl h)
    · rcases lt_trichotomy a.totalSeconds b.totalSeconds with h2 | h2 | h2
      · exact Or.inr (Or.inr ⟨h.symm, Or.inl h2⟩)
      · rcases strLe_total a.username b.username with hs | hs
        · exact Or.inl (Or.inr ⟨h, Or.inr ⟨h2, hs⟩⟩)
        · exact Or.inr (Or.inr ⟨h.symm, Or.inr ⟨h2.symm, hs⟩⟩)
      · exact Or.inl (Or.inr ⟨h, Or.inl h2⟩)
    · exact Or.inr (Or.inl h)

instance : IsTrans DailyStat StatLE where
  trans a b c hab hbc := by
    unfold StatLE at hab hbc ⊢
    rw [statLe_iff] at hab hbc ⊢
    rcases hab with h | ⟨e1, hab⟩
    · rcases hbc with h2 | ⟨e2, _⟩
      · exact Or.inl (lt_trans h h2)
      · exact Or.inl (e2 ▸ h)
    · rcases hbc with h2 | ⟨e2, hbc⟩
      · exact Or.inl (e1 ▸ h2)
      · refine Or.inr ⟨e1.trans e2, ?_⟩
        rcases hab with h3 | ⟨s1, hu1⟩
        · rcases hbc with h4 | ⟨s2, _⟩
          · exact Or.inl (lt_trans h4 h3)
          · exact Or.inl (s2 ▸ h3)
        · rcases hbc with h4 | ⟨s2, hu2⟩
          · exact Or.inl (s1 ▸ h4)
          · exact Or.inr ⟨s1.trans s2, strLe_trans hu1 hu2⟩

/-- `sortStats` (`leaderboard.ts` lines 10-20): stable sort by the comparator. -/
def sortStats (stats : List DailyStat) : List DailyStat :=
  List.insertionSort StatLE stats

/-- One step of the mutable `currentRank`/`lastSeconds` state of
`computeLeaderboard`'s ranking walk; returns the updated pair. -/
def rankStep (shouldBreakAllZeroTies : Bool) (index currentRank : Nat)
    (lastSeconds : Option Int) (entry : DailyStat) : Nat × Option Int :=
  if entry.status = .ok then
    if shouldBreakAllZeroTies then (index + 1, some entry.totalSeconds)
    else
      match lastSeconds with
      | none => (index + 1, some entry.totalSeconds)
      | some s =>
        if entry.totalSeconds ≠ s then (index + 1, some entry.totalSeconds)
        else (currentRank, lastSeconds)
  else (currentRank, lastSeconds)

/-- The `ordered.map((entry, index) => ...)` walk of `computeLeaderboard`,
with the captured mutable state made explicit. -/
def mapRanks (shouldBreakAllZeroTies : Bool) (selfSeconds : Int) :
    List DailyStat → Nat → Nat → Option Int → List LeaderboardEntry
  | [], _, _, _ => []
  | e :: rest, index, currentRank, lastSeconds =>
    let st := rankStep shouldBreakAllZeroTies index currentRank lastSeconds e
    { toDailyStat := e
      rank := if e.status = .ok then some st.1 else none
      deltaSeconds := e.totalSeconds - selfSeconds } ::
      mapRanks shouldBreakAllZeroTies selfSeconds rest (index + 1) st.1 st.2

/-- `computeLeaderboard` (`leaderboard.ts` lines 22-54). -/
def computeLeaderboard (stats : List DailyStat) (selfUsername : String) :
    List LeaderboardEntry :=
  let ordered := sortStats stats
  let ranked := ordered.filter (fun e => e.status = .ok)
  let shouldBreakAllZeroTies :=
    !ranked.isEmpty && ranked.all (fun e => e.totalSeconds = 0)
  let selfSeconds :=
    ((ordered.find? (fun e => e.username = selfUsername)).map
      (fun e => e.totalSeconds)).getD 0
  mapRanks shouldBreakAllZeroTies selfSeconds ordered 0 0 none

/-- Result record of `sliceLeaderboard`. -/
structure SliceResult where
  ordered : List DailyStat
  podium : List DailyStat
  nearMe : List DailyStat
  rest : List DailyStat
  selfEntry : Option DailyStat
  leaderEntry : Option DailyStat
deriving DecidableEq, Repr

/-- `sliceLeaderboard` (`leaderboard.ts` lines 61-100); `podiumCount` and
`aroundCount` default to 3 and 1.  `ranked.slice(start, end)` is modelled as
drop-then-take; the `picked` username `Set` as an `any` test over
`podium ++ nearMe`. -/
def sliceLeaderboard (entries : List DailyStat) (selfUsername : String)
    (podiumCount : Nat := 3) (aroundCount : Nat := 1) : SliceResult :=
  let ordered := sortStats entries
  let ranked := ordered.filter (fun e => e.status = .ok)
  let podium := ranked.take podiumCount
  let selfIndex? := ranked.findIdx? (fun e => e.username = selfUsername)
  let selfEntry := selfIndex?.bind (fun i => ranked.get? i)
  let leaderEntry := ranked.head?
  let nearMe :=
    match selfIndex? with
    | none => []
    | some selfIndex =>
      let start := selfIndex - aroundCount
      let stop := min ranked.length (selfIndex + aroundCount + 1)
      (ranked.drop start).take (stop - start)
  let rest := ordered.filter
    (fun e => !(podium ++ nearMe).any (fun p => p.username = e.username))
  ⟨ordered, podium, nearMe, rest, selfEntry, leaderEntry⟩

/-! ## `formatDuration` (packages/shared `format.ts`) -/

/-- A JavaScript number: a finite rational or one of the non-finite values. -/
inductive JSNum where
  | num (q : ℚ)
  | nan
  | posInf
  | negInf
deriving DecidableEq

/-- `Number.isFinite`. -/
def JSNum.finite : JSNum → Bool
  | .num _ => true
  | _ => false

/-- `const safeSeconds = Number.isFinite(seconds) ? Math.max(0, seconds) : 0`. -/
def safeSeconds : JSNum → ℚ
  | .num q => max 0 q
  | _ => 0

/-- `formatDuration` (shared `format.ts` lines 101-116); `Math.round(x)` is
`⌊x + 1/2⌋`, the `totalMinutes`/`hours`/`minutes` consts are written inline
(`hours = totalMinutes / 60`, `minutes = totalMinutes % 60`), and the
template strings render the integers in decimal. -/
def formatDuration (seconds : JSNum) : String :=
  if (⌊safeSeconds seconds / 60 + 1 / 2⌋ : Int) / 60 = 0 then
    toString ((⌊safeSeconds seconds / 60 + 1 / 2⌋ : Int) % 60) ++ "m"
  else if (⌊safeSeconds seconds / 60 + 1 / 2⌋ : Int) % 60 = 0 then
    toString ((⌊safeSeconds seconds / 60 + 1 / 2⌋ : Int) / 60) ++ "h"
  else
    toString ((⌊safeSeconds seconds / 60 + 1 / 2⌋ : Int) / 60) ++ "h " ++
      toString ((⌊safeSeconds seconds / 60 + 1 / 2⌋ : Int) % 60) ++ "m"

/-! ## Structural lemmas about `mapRanks` -/

theorem mapRanks_map_stat (b : Bool) (ss : Int) :
    ∀ (l : List DailyStat) (i r : Nat) (last : Option Int),
      (mapRanks b ss l i r last).map (fun e => e.toDailyStat) = l := by
  intro l
  induction l with
  | nil => intro i r last; rfl
  | cons e rest ih => intro i r last; simp [mapRanks, ih]

theorem mapRanks_length (b : Bool) (ss : Int) (l : List DailyStat) (i r : Nat)
    (last : Option Int) : (mapRanks b ss l i r last).length = l.length := by
  have h := congrArg List.length (mapRanks_map_stat b ss l i r last)
  simpa using h

theorem mapRanks_get?_stat (b : Bool) (ss : Int) (l : List DailyStat) (i r : Nat)
    (last : Option Int) (k : Nat) :
    ((mapRanks b ss l i r last).get? k).map (fun e => e.toDailyStat) = l.get? k := by
  rw [← List.get?_map, mapRanks_map_stat]

theorem mapRanks_mem (b : Bool) (ss : Int) :
    ∀ (l : List DailyStat) (i r : Nat) (last : Option Int),
      ∀ x ∈ mapRanks b ss l i r last,
        (x.status ≠ .ok → x.rank = none) ∧
        (x.status = .ok → ∃ n, x.rank = some n) ∧
        x.deltaSeconds = x.totalSeconds - ss := by
  intro l
  induction l with
  | nil => intro i r last x hx; cases hx
  | cons e rest ih =>
    intro i r last x hx
    rcases List.mem_cons.mp hx with h | h
    · subst h
      by_cases he : e.status = .ok
      · exact ⟨fun hne => absurd he hne,
          fun _ => ⟨(rankStep b i r last e).1, by simp [he]⟩, rfl⟩
      · exact ⟨fun _ => by simp [he], fun hok => absurd hok he, rfl⟩
    · exact ih _ _ _ x h

theorem rankStep_ok_snd (b : Bool) (i r : Nat) (last : Option Int) (e : DailyStat)
    (he : e.status = .ok) : (rankStep b i r last e).2 = some e.totalSeconds := by
  unfold rankStep
  rw [if_pos he]
  cases b with
  | true => rfl
  | false =>
    cases last with
    | none => rfl
    | some s =>
      by_cases h : e.totalSeconds = s
      · simp [h]
      · simp [h]

theorem mapRanks_get?_zero_rank (b : Bool) (ss : Int) (e : DailyStat)
    (rest : List DailyStat) (i r : Nat) (last : Option Int) (x : LeaderboardEntry)
    (hx : (mapRanks b ss (e :: rest) i r last).get? 0 = some x) :
    x.rank = if e.status = .ok then some (rankStep b i r last e).1 else none := by
  simp only [mapRanks, List.get?] at hx
  cases hx
  rfl

theorem mapRanks_zero_rank_of_none (b : Bool) (ss : Int) (e : DailyStat)
    (rest : List DailyStat) (i r : Nat) (x : LeaderboardEntry)
    (hx : (mapRanks b ss (e :: rest) i r none).get? 0 = some x)
    (he : e.status = .ok) : x.rank = some (i + 1) := by
  rw [mapRanks_get?_zero_rank b ss e rest i r none x hx, if_pos he]
  unfold rankStep
  rw [if_pos he]
  cases b <;> rfl

theorem mapRanks_true_rank (ss : Int) :
    ∀ (l : List DailyStat) (i r : Nat) (last : Option Int) (k : Nat)
      (x : LeaderboardEntry),
      (mapRanks true ss l i r last).get? k = some x → x.status = .ok →
      x.rank = some (i + k + 1) := by
  intro l
  induction l with
  | nil => intro i r last k x hx; simp [mapRanks] at hx
  | cons e rest ih =>
    intro i r last k x hx hok
    cases k with
    | zero =>
      have hrank := mapRanks_get?_zero_rank true ss e rest i r last x hx
      have hstat : x.toDailyStat = e := by
        have h := mapRanks_get?_stat true ss (e :: rest) i r last 0
        rw [hx] at h
        simpa using h
      have he : e.status = .ok := by rw [← hstat]; exact hok
      rw [hrank, if_pos he]
      simp [rankStep, he]
    | succ k =>
      have hx' : (mapRanks true ss rest (i + 1)
          (rankStep true i r last e).1 (rankStep true i r last e).2).get? k = some x := by
        simpa [mapRanks] using hx
      have hr := ih (i + 1) (rankStep true i r last e).1 (rankStep true i r last e).2 k x hx' hok
      rw [hr]
      congr 1
      omega

theorem mapRanks_adj (ss : Int) :
    ∀ (l : List DailyStat) (i r : Nat) (last : Option Int) (k : Nat)
      (x y : LeaderboardEntry),
      (mapRanks false ss l i r last).get? k = some x →
      (mapRanks false ss l i r last).get? (k + 1) = some y →
      x.status = .ok → y.status = .ok →
      (y.totalSeconds = x.totalSeconds → y.rank = x.rank) ∧
      (y.totalSeconds ≠ x.totalSeconds → y.rank = some (i + k + 2)) := by
  intro l
  induction l with
  | nil => intro i r last k x y hx _ _ _; simp [mapRanks] at hx
  | cons e rest ih =>
    intro i r last k x y hx hy hxok hyok
    cases k with
    | zero =>
      have hxstat : x.toDailyStat = e := by
        have h := mapRanks_get?_stat false ss (e :: rest) i r last 0
        rw [hx] at h; simpa using h
      have he : e.status = .ok := by rw [← hxstat]; exact hxok
      have hxrank : x.rank = some (rankStep false i r last e).1 := by
        rw [mapRanks_get?_zero_rank false ss e rest i r last x hx, if_pos he]
      have hy0 : (mapRanks false ss rest (i + 1) (rankStep false i r last e).1
          (rankStep false i r last e).2).get? 0 = some y := by
        simpa [mapRanks] using hy
      cases rest with
      | nil => simp [mapRanks] at hy0
      | cons f rest2 =>
        have hystat : y.toDailyStat = f := by
          have h := mapRanks_get?_stat false ss (f :: rest2) (i + 1)
            (rankStep false i r last e).1 (rankStep false i r last e).2 0
          rw [hy0] at h; simpa using h
        have hf : f.status = .ok := by rw [← hystat]; exact hyok
        have hyrank : y.rank = some (rankStep false (i + 1)
            (rankStep false i r last e).1 (rankStep false i r last e).2 f).1 := by
          rw [mapRanks_get?_zero_rank false ss f rest2 (i + 1) _ _ y hy0, if_pos hf]
        rw [rankStep_ok_snd false i r last e he] at hyrank
        by_cases hsec : f.totalSeconds = e.totalSeconds
        · have hstep : (rankStep false (i + 1) (rankStep false i r last e).1
              (some e.totalSeconds) f).1 = (rankStep false i r last e).1 := by
            unfold rankStep
            rw [if_pos hf]
            simp [hsec]
          refine ⟨fun _ => ?_, fun hne => ?_⟩
          · rw [hyrank, hstep, hxrank]
          · exact absurd (by rw [← hystat, ← hxstat] at hsec; exact hsec) hne
        · have hstep : (rankStep false (i + 1) (rankStep false i r last e).1
              (some e.totalSeconds) f).1 = i + 1 + 1 := by
            unfold rankStep
            rw [if_pos hf]
            simp [hsec]
          refine ⟨fun heq => ?_, fun _ => ?_⟩
          · rw [← hystat, ← hxstat] at hsec
            exact absurd heq hsec
          · rw [hyrank, hstep]
    | succ k =>
      have hx' : (mapRanks false ss rest (i + 1) (rankStep false i r last e).1
          (rankStep false i r last e).2).get? k = some x := by
        simpa [mapRanks] using hx
      have hy' : (mapRanks false ss rest (i + 1) (rankStep false i r last e).1
          (rankStep false i r last e).2).get? (k + 1) = some y := by
        simpa [mapRanks] using hy
      have h := ih (i + 1) (rankStep false i r last e).1 (rankStep false i r last e).2
        k x y hx' hy' hxok hyok
      refine ⟨h.1, fun hne => ?_⟩
      rw [h.2 hne]
      congr 1
      omega

/-! ## Facts about `sortStats` and `computeLeaderboard` -/

theorem sortStats_perm (stats : List DailyStat) : (sortStats stats).Perm stats :=
  List.perm_insertionSort StatLE stats

theorem sortStats_sorted (stats : List DailyStat) :
    List.Sorted StatLE (sortStats stats) :=
  List.sorted_insertionSort StatLE stats

/-- `computeLeaderboard` with its `let`-bound intermediates spelled out. -/
theorem computeLeaderboard_eq (stats : List DailyStat) (selfUsername : String) :
    computeLeaderboard stats selfUsername =
      mapRanks
        (!((sortStats stats).filter (fun e => e.status = .ok)).isEmpty &&
          ((sortStats stats).filter (fun e => e.status = .ok)).all
            (fun e => e.totalSeconds = 0))
        ((((sortStats stats).find? (fun e => e.username = selfUsername)).map
          (fun e => e.totalSeconds)).getD 0)
        (sortStats stats) 0 0 none := rfl

theorem computeLeaderboard_map_stat (stats : List DailyStat) (selfUsername : String) :
    (computeLeaderboard stats selfUsername).map (fun e => e.toDailyStat) =
      sortStats stats := by
  rw [computeLeaderboard_eq]
  exact mapRanks_map_stat _ _ _ _ _ _

theorem computeLeaderboard_length (stats : List DailyStat) (selfUsername : String) :
    (computeLeaderboard stats selfUsername).length = stats.length := by
  have h := congrArg List.length (computeLeaderboard_map_stat stats selfUsername)
  simpa using h.trans (sortStats_perm stats).length_eq

theorem computeLeaderboard_pairwise (stats : List DailyStat) (selfUsername : String) :
    (computeLeaderboard stats selfUsername).Pairwise
      (fun a b => StatLE a.toDailyStat b.toDailyStat) := by
  have hs : List.Pairwise StatLE (sortStats stats) := sortStats_sorted stats
  rw [← computeLeaderboard_map_stat stats selfUsername] at hs
  exact List.pairwise_map.mp hs

theorem isEmpty_eq_false_iff {α : Type} (l : List α) : l.isEmpty = false ↔ l ≠ [] := by
  cases l <;> simp

/-- The `shouldBreakAllZeroTies` flag, characterised on the unsorted input. -/
theorem shouldBreak_iff (stats : List DailyStat) :
    (!((sortStats stats).filter (fun e => e.status = .ok)).isEmpty &&
      ((sortStats stats).filter (fun e => e.status = .ok)).all
        (fun e => e.totalSeconds = 0)) = true ↔
      ((∃ e ∈ stats, e.status = .ok) ∧
        ∀ e ∈ stats, e.status = .ok → e.totalSeconds = 0) := by
  rw [Bool.and_eq_true, Bool.not_eq_true', isEmpty_eq_false_iff, List.all_eq_true]
  constructor
  · rintro ⟨h1, h2⟩
    obtain ⟨x, hx⟩ := List.exists_mem_of_ne_nil _ h1
    have hx' := List.mem_filter.mp hx
    refine ⟨⟨x, (sortStats_perm stats).mem_iff.mp hx'.1, of_decide_eq_true hx'.2⟩, ?_⟩
    intro e he hok
    have hmem : e ∈ (sortStats stats).filter (fun e => e.status = .ok) :=
      List.mem_filter.mpr ⟨(sortStats_perm stats).mem_iff.mpr he, decide_eq_true hok⟩
    exact of_decide_eq_true (h2 e hmem)
  · rintro ⟨⟨w, hw, hwok⟩, hall⟩
    have hmem : w ∈ (sortStats stats).filter (fun e => e.status = .ok) :=
      List.mem_filter.mpr ⟨(sortStats_perm stats).mem_iff.mpr hw, decide_eq_true hwok⟩
    constructor
    · intro hnil
      rw [hnil] at hmem
      cases hmem
    · intro e he
      have he' := List.mem_filter.mp he
      exact decide_eq_true
        (hall e ((sortStats_perm stats).mem_iff.mp he'.1) (of_decide_eq_true he'.2))

theorem statusOrder_eq_zero {s : DailyStatStatus} (h : statusOrder s = 0) : s = .ok := by
  cases s
  · rfl
  · simp [statusOrder] at h
  · simp [statusOrder] at h
  · simp [statusOrder] at h

/-- In the sorted output, `ok` entries form a prefix. -/
theorem computeLeaderboard_ok_prefix (stats : List DailyStat) (selfUsername : String)
    (i j : Nat) (hij : i < j) (hj : j < (computeLeaderboard stats selfUsername).length)
    (hok : ((computeLeaderboard stats selfUsername).get ⟨j, hj⟩).status = .ok) :
    ((computeLeaderboard stats selfUsername).get ⟨i, lt_trans hij hj⟩).status = .ok := by
  have hp := computeLeaderboard_pairwise stats selfUsername
  rw [List.pairwise_iff_get] at hp
  have h := hp ⟨i, lt_trans hij hj⟩ ⟨j, hj⟩ hij
  unfold StatLE at h
  rw [statLe_iff] at h
  rcases h with h | ⟨he, _⟩
  · rw [hok] at h
    exact absurd h (by simp [statusOrder])
  · rw [hok] at he
    exact statusOrder_eq_zero he

/-! ## Claim theorems: ranking (C1, C6, C7) -/

/-- C1: in `computeLeaderboard`'s output, `ok` entries carry dense competition
ranks — consecutive `ok` entries with equal `totalSeconds` share a rank and a
distinct value receives its 1-indexed sorted position — except that when every
`ok` entry of the input has `totalSeconds = 0`, `ok` entries receive strictly
sequential ranks `1, 2, 3, …` by sorted position. -/
theorem claim_c1 (stats : List DailyStat) (selfUsername : String) :
    ((∀ e ∈ stats, e.status = .ok → e.totalSeconds = 0) →
      ∀ i, ∀ h : i < (computeLeaderboard stats selfUsername).length,
        ((computeLeaderboard stats selfUsername).get ⟨i, h⟩).status = .ok →
        ((computeLeaderboard stats selfUsername).get ⟨i, h⟩).rank = some (i + 1)) ∧
    ((¬ ∀ e ∈ stats, e.status = .ok → e.totalSeconds = 0) →
      (∀ h0 : 0 < (computeLeaderboard stats selfUsername).length,
        ((computeLeaderboard stats selfUsername).get ⟨0, h0⟩).status = .ok →
        ((computeLeaderboard stats selfUsername).get ⟨0, h0⟩).rank = some 1) ∧
      (∀ i, ∀ h : i + 1 < (computeLeaderboard stats selfUsername).length,
        ((computeLeaderboard stats selfUsername).get ⟨i + 1, h⟩).status = .ok →
        ((computeLeaderboard stats selfUsername).get
            ⟨i, Nat.lt_of_succ_lt h⟩).status = .ok ∧
        (((computeLeaderboard stats selfUsername).get ⟨i + 1, h⟩).totalSeconds =
            ((computeLeaderboard stats selfUsername).get
              ⟨i, Nat.lt_of_succ_lt h⟩).totalSeconds →
          ((computeLeaderboard stats selfUsername).get ⟨i + 1, h⟩).rank =
            ((computeLeaderboard stats selfUsername).get
              ⟨i, Nat.lt_of_succ_lt h⟩).rank) ∧
        (((computeLeaderboard stats selfUsername).get ⟨i + 1, h⟩).totalSeconds ≠
            ((computeLeaderboard stats selfUsername).get
              ⟨i, Nat.lt_of_succ_lt h⟩).totalSeconds →
          ((computeLeaderboard stats selfUsername).get ⟨i + 1, h⟩).rank =
            some (i + 2)))) := by
  constructor
  · intro hall i h hok
    by_cases hsome : ∃ e ∈ stats, e.status = .ok
    · have hB := (shouldBreak_iff stats).mpr ⟨hsome, hall⟩
      have hx : (mapRanks true
          ((((sortStats stats).find? (fun e => e.username = selfUsername)).map
            (fun e => e.totalSeconds)).getD 0)
          (sortStats stats) 0 0 none).get? i =
          some ((computeLeaderboard stats selfUsername).get ⟨i, h⟩) := by
        rw [← hB, ← computeLeaderboard_eq]
        exact List.get?_eq_get h
      have := mapRanks_true_rank _ (sortStats stats) 0 0 none i _ hx hok
      simpa using this
    · exfalso
      apply hsome
      have hmem : (computeLeaderboard stats selfUsername).get ⟨i, h⟩ ∈
          computeLeaderboard stats selfUsername := List.get_mem _ _ _
      have hmem2 : ((computeLeaderboard stats selfUsername).get ⟨i, h⟩).toDailyStat ∈
          (computeLeaderboard stats selfUsername).map (fun e => e.toDailyStat) :=
        List.mem_map_of_mem _ hmem
      rw [computeLeaderboard_map_stat] at hmem2
      exact ⟨_, (sortStats_perm stats).mem_iff.mp hmem2, hok⟩
  · intro hnall
    have hB : (!((sortStats stats).filter (fun e => e.status = .ok)).isEmpty &&
        ((sortStats stats).filter (fun e => e.status = .ok)).all
          (fun e => e.totalSeconds = 0)) = false := by
      rcases hb : (!((sortStats stats).filter (fun e => e.status = .ok)).isEmpty &&
          ((sortStats stats).filter (fun e => e.status = .ok)).all
            (fun e => e.totalSeconds = 0)) with _ | _
      · exact hb
      · exact absurd ((shouldBreak_iff stats).mp hb).2 hnall
    constructor
    · intro h0 hok
      have hx : (mapRanks false
          ((((sortStats stats).find? (fun e => e.username = selfUsername)).map
            (fun e => e.totalSeconds)).getD 0)
          (sortStats stats) 0 0 none).get? 0 =
          some ((computeLeaderboard stats selfUsername).get ⟨0, h0⟩) := by
        rw [← hB, ← computeLeaderboard_eq]
        exact List.get?_eq_get h0
      cases hsl : sortStats stats with
      | nil =>
        rw [hsl] at hx
        simp [mapRanks] at hx
      | cons e rest =>
        rw [hsl] at hx
        exact mapRanks_zero_rank_of_none false _ e rest 0 0 _ hx (by
          have hstat : ((computeLeaderboard stats selfUsername).get
              ⟨0, h0⟩).toDailyStat = e := by
            have hgs := mapRanks_get?_stat false
              ((((e :: rest).find? (fun e => e.username = selfUsername)).map
                (fun e => e.totalSeconds)).getD 0) (e :: rest) 0 0 none 0
            rw [hx] at hgs
            simpa using hgs
          rw [← hstat]
          exact hok)
    · intro i h hok1
      have hok0 : ((computeLeaderboard stats selfUsername).get
          ⟨i, Nat.lt_of_succ_lt h⟩).status = .ok :=
        computeLeaderboard_ok_prefix stats selfUsername i (i + 1) (Nat.lt_succ_self i) h hok1
      have hx : (mapRanks false
          ((((sortStats stats).find? (fun e => e.username = selfUsername)).map
            (fun e => e.totalSeconds)).getD 0)
          (sortStats stats) 0 0 none).get? i =
          some ((computeLeaderboard stats selfUsername).get ⟨i, Nat.lt_of_succ_lt h⟩) := by
        rw [← hB, ← computeLeaderboard_eq]
        exact List.get?_eq_get (Nat.lt_of_succ_lt h)
      have hy : (mapRanks false
          ((((sortStats stats).find? (fun e => e.username = selfUsername)).map
            (fun e => e.totalSeconds)).getD 0)
          (sortStats stats) 0 0 none).get? (i + 1) =
          some ((computeLeaderboard stats selfUsername).get ⟨i + 1, h⟩) := by
        rw [← hB, ← computeLeaderboard_eq]
        exact List.get?_eq_get h
      have hadj := mapRanks_adj _ (sortStats stats) 0 0 none i _ _ hx hy hok0 hok1
      refine ⟨hok0, hadj.1, fun hne => ?_⟩
      have := hadj.2 hne
      simpa using this

/-- Witness for C1 at the spec's own examples: a dense "1,1,3" input and an
all-zero input with strictly sequential ranks. -/
theorem claim_c1_witness :
    ((¬ ∀ e ∈ ([⟨"amy", none, 1200, .ok, none⟩, ⟨"ben", none, 1200, .ok, none⟩,
          ⟨"mo", none, 900, .ok, none⟩] : List DailyStat),
        e.status = .ok → e.totalSeconds = 0) ∧
      ((computeLeaderboard [⟨"amy", none, 1200, .ok, none⟩,
          ⟨"ben", none, 1200, .ok, none⟩, ⟨"mo", none, 900, .ok, none⟩] "mo").get
        ⟨1, by decide⟩).rank =
        ((computeLeaderboard [⟨"amy", none, 1200, .ok, none⟩,
          ⟨"ben", none, 1200, .ok, none⟩, ⟨"mo", none, 900, .ok, none⟩] "mo").get
        ⟨0, by decide⟩).rank ∧
      ((computeLeaderboard [⟨"amy", none, 1200, .ok, none⟩,
          ⟨"ben", none, 1200, .ok, none⟩, ⟨"mo", none, 900, .ok, none⟩] "mo").get
        ⟨2, by decide⟩).rank = some 3) ∧
    ((∀ e ∈ ([⟨"zoe", none, 0, .ok, none⟩, ⟨"amy", none, 0, .ok, none⟩,
          ⟨"mo", none, 0, .ok, none⟩] : List DailyStat),
        e.status = .ok → e.totalSeconds = 0) ∧
      ((computeLeaderboard [⟨"zoe", none, 0, .ok, none⟩, ⟨"amy", none, 0, .ok, none⟩,
          ⟨"mo", none, 0, .ok, none⟩] "mo").get ⟨1, by decide⟩).rank = some 2) := by
  refine ⟨⟨by decide, ?_, ?_⟩, ⟨by decide, ?_⟩⟩
  · exact (((claim_c1 _ "mo").2 (by decide)).2 0 (by decide) (by decide)).2.1 (by decide)
  · exact (((claim_c1 _ "mo").2 (by decide)).2 1 (by decide) (by decide)).2.2 (by decide)
  · exact (claim_c1 _ "mo").1 (by decide) 1 (by decide) (by decide)

/-- C6: `computeLeaderboard`'s output is ordered by status rank ascending,
then `totalSeconds` descending, then username ascending; every non-`ok` entry
appears after all `ok` entries, and every non-`ok` entry has `rank = none`. -/
theorem claim_c6 (stats : List DailyStat) (selfUsername : String) :
    ((computeLeaderboard stats selfUsername).Pairwise (fun a b =>
      statusOrder a.status < statusOrder b.status ∨
      (statusOrder a.status = statusOrder b.status ∧
        (b.totalSeconds < a.totalSeconds ∨
          (a.totalSeconds = b.totalSeconds ∧ strLe a.username b.username = true))))) ∧
    (∀ i j, ∀ hi : i < (computeLeaderboard stats selfUsername).length,
      ∀ hj : j < (computeLeaderboard stats selfUsername).length, i < j →
      ((computeLeaderboard stats selfUsername).get ⟨j, hj⟩).status = .ok →
      ((computeLeaderboard stats selfUsername).get ⟨i, hi⟩).status = .ok) ∧
    (∀ e ∈ computeLeaderboard stats selfUsername, e.status ≠ .ok → e.rank = none) := by
  refine ⟨?_, ?_, ?_⟩
  · refine (computeLeaderboard_pairwise stats selfUsername).imp ?_
    intro a b h
    exact (statLe_iff a.toDailyStat b.toDailyStat).mp h
  · intro i j hi hj hij hok
    exact computeLeaderboard_ok_prefix stats selfUsername i j hij hj hok
  · intro e he hne
    have h := mapRanks_mem _ _ (sortStats stats) 0 0 none e
      (by rw [← computeLeaderboard_eq]; exact he)
    exact h.1 hne

/-- Witness for C6 at the spec's example `[ben ok, amy ok, dena private, mo ok]`. -/
theorem claim_c6_witness :
    ((computeLeaderboard [⟨"ben", none, 1000, .ok, none⟩, ⟨"amy", none, 2000, .ok, none⟩,
        ⟨"dena", none, 0, .isPrivate, none⟩, ⟨"mo", none, 1500, .ok, none⟩] "mo").get
      ⟨1, by decide⟩).status = .ok ∧
    (⟨⟨"dena", none, 0, .isPrivate, none⟩, none, -1500⟩ : LeaderboardEntry).rank = none := by
  constructor
  · exact (claim_c6 _ "mo").2.1 1 2 (by decide) (by decide) (by decide) (by decide)
  · refine (claim_c6 [⟨"ben", none, 1000, .ok, none⟩, ⟨"amy", none, 2000, .ok, none⟩,
      ⟨"dena", none, 0, .isPrivate, none⟩, ⟨"mo", none, 1500, .ok, none⟩] "mo").2.2
      _ (by decide) (by decide)

/-- C7 as stated is false: `computeLeaderboard` locates the self entry by
username match in the *sorted* order, not in the input order.  With two
entries sharing the self username but different `totalSeconds`, the deltas
disagree with the input-located self. -/
theorem claim_c7_counterexample :
    ¬ (∀ e ∈ computeLeaderboard
          [⟨"al", none, 5, .ok, none⟩, ⟨"al", none, 10, .ok, none⟩] "al",
        e.deltaSeconds = e.totalSeconds -
          ((((([⟨"al", none, 5, .ok, none⟩, ⟨"al", none, 10, .ok, none⟩] :
              List DailyStat).find? (fun s => s.username = "al")).map
            (fun s => s.totalSeconds)).getD 0))) := by
  decide

/-- C7 (amended): every output entry's `deltaSeconds` equals its
`totalSeconds` minus the `totalSeconds` of the first entry of the *sorted*
input whose username equals `selfUsername` (0 when absent). -/
theorem claim_c7 (stats : List DailyStat) (selfUsername : String) :
    ∀ e ∈ computeLeaderboard stats selfUsername,
      e.deltaSeconds = e.totalSeconds -
        ((((sortStats stats).find? (fun s => s.username = selfUsername)).map
          (fun s => s.totalSeconds)).getD 0) := by
  intro e he
  have h := mapRanks_mem _ _ (sortStats stats) 0 0 none e
    (by rw [← computeLeaderboard_eq]; exact he)
  exact h.2.2

/-- Witness for C7 at a concrete input. -/
theorem claim_c7_witness :
    ((computeLeaderboard [⟨"amy", none, 2000, .ok, none⟩, ⟨"mo", none, 1500, .ok, none⟩]
        "mo").get ⟨0, by decide⟩).deltaSeconds =
      ((computeLeaderboard [⟨"amy", none, 2000, .ok, none⟩, ⟨"mo", none, 1500, .ok, none⟩]
        "mo").get ⟨0, by decide⟩).totalSeconds -
        ((((sortStats [⟨"amy", none, 2000, .ok, none⟩, ⟨"mo", none, 1500, .ok, none⟩]).find?
          (fun s => s.username = "mo")).map (fun s => s.totalSeconds)).getD 0) :=
  claim_c7 _ "mo" _ (List.get_mem _ _ _)

/-! ## Claim theorems: `sliceLeaderboard` (C2) -/

/-- C2 as stated is false: the `nearMe` window may overlap `podium` (the
repository's own test expects `cora` in both), and with two entries sharing a
username the union of the three buckets misses an entry (the second `mo` entry
is neither picked nor allowed into `rest`). -/
theorem claim_c2_counterexample :
    ¬ ((∀ e ∈ (sliceLeaderboard [⟨"amy", none, 4000, .ok, none⟩,
          ⟨"ben", none, 3500, .ok, none⟩, ⟨"cora", none, 3000, .ok, none⟩,
          ⟨"mo", none, 2500, .ok, none⟩, ⟨"dena", none, 2400, .ok, none⟩,
          ⟨"mo", none, 1, .ok, none⟩] "mo" 3 1).podium,
        ∀ f ∈ (sliceLeaderboard [⟨"amy", none, 4000, .ok, none⟩,
          ⟨"ben", none, 3500, .ok, none⟩, ⟨"cora", none, 3000, .ok, none⟩,
          ⟨"mo", none, 2500, .ok, none⟩, ⟨"dena", none, 2400, .ok, none⟩,
          ⟨"mo", none, 1, .ok, none⟩] "mo" 3 1).nearMe, e.username ≠ f.username) ∧
      (∀ e ∈ ([⟨"amy", none, 4000, .ok, none⟩,
          ⟨"ben", none, 3500, .ok, none⟩, ⟨"cora", none, 3000, .ok, none⟩,
          ⟨"mo", none, 2500, .ok, none⟩, ⟨"dena", none, 2400, .ok, none⟩,
          ⟨"mo", none, 1, .ok, none⟩] : List DailyStat),
        e ∈ (sliceLeaderboard [⟨"amy", none, 4000, .ok, none⟩,
          ⟨"ben", none, 3500, .ok, none⟩, ⟨"cora", none, 3000, .ok, none⟩,
          ⟨"mo", none, 2500, .ok, none⟩, ⟨"dena", none, 2400, .ok, none⟩,
          ⟨"mo", none, 1, .ok, none⟩] "mo" 3 1).podium ∨
        e ∈ (sliceLeaderboard [⟨"amy", none, 4000, .ok, none⟩,
          ⟨"ben", none, 3500, .ok, none⟩, ⟨"cora", none, 3000, .ok, none⟩,
          ⟨"mo", none, 2500, .ok, none⟩, ⟨"dena", none, 2400, .ok, none⟩,
          ⟨"mo", none, 1, .ok, none⟩] "mo" 3 1).nearMe ∨
        e ∈ (sliceLeaderboard [⟨"amy", none, 4000, .ok, none⟩,
          ⟨"ben", none, 3500, .ok, none⟩, ⟨"cora", none, 3000, .ok, none⟩,
          ⟨"mo", none, 2500, .ok, none⟩, ⟨"dena", none, 2400, .ok, none⟩,
          ⟨"mo", none, 1, .ok, none⟩] "mo" 3 1).rest)) := by
  decide

/-- C2 (amended): `rest` is disjoint by username from `podium ∪ nearMe`
(`podium` and `nearMe` themselves may overlap), and every input entry's
username appears in at least one of the three buckets — an entry whose
username is unpicked lands in `rest` itself. -/
theorem claim_c2 (entries : List DailyStat) (selfUsername : String) (pc ac : Nat) :
    (∀ e ∈ (sliceLeaderboard entries selfUsername pc ac).rest,
      ∀ f, (f ∈ (sliceLeaderboard entries selfUsername pc ac).podium ∨
          f ∈ (sliceLeaderboard entries selfUsername pc ac).nearMe) →
        e.username ≠ f.username) ∧
    (∀ e ∈ entries,
      ∃ x, (x ∈ (sliceLeaderboard entries selfUsername pc ac).podium ∨
          x ∈ (sliceLeaderboard entries selfUsername pc ac).nearMe ∨
          x ∈ (sliceLeaderboard entries selfUsername pc ac).rest) ∧
        x.username = e.username) := by
  constructor
  · intro e he f hf
    have hrest : (sliceLeaderboard entries selfUsername pc ac).rest =
        (sortStats entries).filter (fun x =>
          !((sliceLeaderboard entries selfUsername pc ac).podium ++
            (sliceLeaderboard entries selfUsername pc ac).nearMe).any
            (fun p => p.username = x.username)) := rfl
    rw [hrest] at he
    have h2 := (List.mem_filter.mp he).2
    rw [Bool.not_eq_true'] at h2
    have hfapp : f ∈ (sliceLeaderboard entries selfUsername pc ac).podium ++
        (sliceLeaderboard entries selfUsername pc ac).nearMe :=
      List.mem_append.mpr hf
    intro heq
    have : ((sliceLeaderboard entries selfUsername pc ac).podium ++
        (sliceLeaderboard entries selfUsername pc ac).nearMe).any
        (fun p => p.username = e.username) = true :=
      List.any_eq_true.mpr ⟨f, hfapp, decide_eq_true heq.symm⟩
    rw [h2] at this
    cases this
  · intro e he
    by_cases hp : ((sliceLeaderboard entries selfUsername pc ac).podium ++
        (sliceLeaderboard entries selfUsername pc ac).nearMe).any
        (fun p => p.username = e.username) = true
    · obtain ⟨x, hx, hxeq⟩ := List.any_eq_true.mp hp
      rcases List.mem_append.mp hx with h | h
      · exact ⟨x, Or.inl h, of_decide_eq_true hxeq⟩
      · exact ⟨x, Or.inr (Or.inl h), of_decide_eq_true hxeq⟩
    · have hfalse : ((sliceLeaderboard entries selfUsername pc ac).podium ++
          (sliceLeaderboard entries selfUsername pc ac).nearMe).any
          (fun p => p.username = e.username) = false := by
        rcases hval : ((sliceLeaderboard entries selfUsername pc ac).podium ++
            (sliceLeaderboard entries selfUsername pc ac).nearMe).any
            (fun p => p.username = e.username) with _ | _
        · rfl
        · exact absurd hval hp
      refine ⟨e, Or.inr (Or.inr ?_), rfl⟩
      have hrest : (sliceLeaderboard entries selfUsername pc ac).rest =
          (sortStats entries).filter (fun x =>
            !((sliceLeaderboard entries selfUsername pc ac).podium ++
              (sliceLeaderboard entries selfUsername pc ac).nearMe).any
              (fun p => p.username = x.username)) := rfl
      rw [hrest]
      refine List.mem_filter.mpr ⟨(sortStats_perm entries).mem_iff.mpr he, ?_⟩
      simp only [hfalse, Bool.not_false]

/-- Witness for C2 at the repository test's input. -/
theorem claim_c2_witness :
    (⟨"eli", none, 0, .isPrivate, none⟩ : DailyStat).username ≠
      (⟨"cora", none, 3000, .ok, none⟩ : DailyStat).username ∧
    (∃ x, (x ∈ (sliceLeaderboard [⟨"amy", none, 4000, .ok, none⟩,
          ⟨"ben", none, 3500, .ok, none⟩, ⟨"cora", none, 3000, .ok, none⟩,
          ⟨"mo", none, 2500, .ok, none⟩, ⟨"dena", none, 2400, .ok, none⟩,
          ⟨"eli", none, 0, .isPrivate, none⟩] "mo" 3 1).podium ∨
        x ∈ (sliceLeaderboard [⟨"amy", none, 4000, .ok, none⟩,
          ⟨"ben", none, 3500, .ok, none⟩, ⟨"cora", none, 3000, .ok, none⟩,
          ⟨"mo", none, 2500, .ok, none⟩, ⟨"dena", none, 2400, .ok, none⟩,
          ⟨"eli", none, 0, .isPrivate, none⟩] "mo" 3 1).nearMe ∨
        x ∈ (sliceLeaderboard [⟨"amy", none, 4000, .ok, none⟩,
          ⟨"ben", none, 3500, .ok, none⟩, ⟨"cora", none, 3000, .ok, none⟩,
          ⟨"mo", none, 2500, .ok, none⟩, ⟨"dena", none, 2400, .ok, none⟩,
          ⟨"eli", none, 0, .isPrivate, none⟩] "mo" 3 1).rest) ∧
      x.username = (⟨"amy", none, 4000, .ok, none⟩ : DailyStat).username) := by
  constructor
  · exact (claim_c2 [⟨"amy", none, 4000, .ok, none⟩,
      ⟨"ben", none, 3500, .ok, none⟩, ⟨"cora", none, 3000, .ok, none⟩,
      ⟨"mo", none, 2500, .ok, none⟩, ⟨"dena", none, 2400, .ok, none⟩,
      ⟨"eli", none, 0, .isPrivate, none⟩] "mo" 3 1).1 _ (by decide) _ (Or.inl (by decide))
  · exact (claim_c2 [⟨"amy", none, 4000, .ok, none⟩,
      ⟨"ben", none, 3500, .ok, none⟩, ⟨"cora", none, 3000, .ok, none⟩,
      ⟨"mo", none, 2500, .ok, none⟩, ⟨"dena", none, 2400, .ok, none⟩,
      ⟨"eli", none, 0, .isPrivate, none⟩] "mo" 3 1).2 _ (by decide)

/-! ## Achievement grants: the in-memory repository (server test
`createMemoryRepository`, mirrored by the Prisma `upsert` in `cli.ts`) -/

inductive AchievementContextKind where
  | daily
  | weekly
deriving DecidableEq, Repr

/-- `AchievementRecord`; `metadata : unknown | null` is modelled generically. -/
structure AchievementRecord (μ : Type) where
  userId : Nat
  achievementId : String
  contextKind : AchievementContextKind
  contextKey : String
  awardedAt : Int
  metadata : Option μ
deriving DecidableEq

/-- The dedupe tuple `(userId, achievementId, contextKind, contextKey)`. -/
def grantKey {μ : Type} (e : AchievementRecord μ) :
    Nat × String × AchievementContextKind × String :=
  (e.userId, e.achievementId, e.contextKind, e.contextKey)

/-- The `findIndex` predicate of `grantAchievement`: the conjunction of the
four tuple-field equalities, i.e. equality of `grantKey`s. -/
def sameGrantTuple {μ : Type} (a b : AchievementRecord μ) : Bool :=
  decide (grantKey a = grantKey b)

/-- `grantAchievement` of the in-memory repository: replace the first row
with a matching tuple in place, else append the new record.  (The `record`
object rebuilt from `input` has exactly `input`'s fields, `metadata ?? null`
collapsing to the same `Option`.) -/
def grantAchievement {μ : Type} (achievements : List (AchievementRecord μ))
    (input : AchievementRecord μ) : List (AchievementRecord μ) :=
  match achievements.findIdx? (fun entry => sameGrantTuple entry input) with
  | some i => achievements.set i input
  | none => achievements ++ [input]

/-- States of the repository's private `achievements` array: it starts empty
and is written only by `grantAchievement`. -/
inductive GrantReachable {μ : Type} : List (AchievementRecord μ) → Prop where
  | empty : GrantReachable []
  | grant {s : List (AchievementRecord μ)} (input : AchievementRecord μ) :
      GrantReachable s → GrantReachable (grantAchievement s input)

theorem sameGrantTuple_trans_of {μ : Type} {a b c : AchievementRecord μ}
    (hab : sameGrantTuple a b = true) :
    sameGrantTuple a c = sameGrantTuple b c := by
  unfold sameGrantTuple at hab ⊢
  rw [of_decide_eq_true hab]

theorem sameGrantTuple_symm {μ : Type} (a b : AchievementRecord μ) :
    sameGrantTuple a b = sameGrantTuple b a := by
  unfold sameGrantTuple
  exact decide_eq_decide.mpr ⟨Eq.symm, Eq.symm⟩

/-- Rows matching a fixed tuple: one `grantAchievement` call leaves their
count unchanged when the input's tuple differs, and makes it
`max(count, 1)`-like when it matches — in particular never above 1 if it was
not above 1. -/
theorem grant_countP {μ : Type} (s : List (AchievementRecord μ))
    (input t : AchievementRecord μ) :
    (grantAchievement s input).countP (fun e => sameGrantTuple e t) =
      if sameGrantTuple input t = true then
        (if (s.countP (fun e => sameGrantTuple e t)) = 0 then 1
         else s.countP (fun e => sameGrantTuple e t))
      else s.countP (fun e => sameGrantTuple e t) := by
  unfold grantAchievement
  rcases hidx : s.findIdx? (fun entry => sameGrantTuple entry input) with _ | i
  · rw [List.findIdx?_eq_none_iff] at hidx
    rw [List.countP_append]
    by_cases hit : sameGrantTuple input t = true
    · have hzero : s.countP (fun e => sameGrantTuple e t) = 0 := by
        by_contra hne
        obtain ⟨a, ha, hat⟩ := List.countP_pos.mp (Nat.pos_of_ne_zero hne)
        have hai : sameGrantTuple a input = true := by
          rw [sameGrantTuple_trans_of hat, sameGrantTuple_symm]
          exact hit
        rw [hidx a ha] at hai
        cases hai
      rw [hzero]
      simp [List.countP_cons, hit]
    · have hw : sameGrantTuple input t = false := by
        rcases hv : sameGrantTuple input t with _ | _
        · rfl
        · exact absurd hv hit
      simp [List.countP_cons, hw, hit]
  · obtain ⟨hlt, hpi, -⟩ := List.findIdx?_eq_some_iff_getElem.mp hidx
    rw [List.countP_set _ _ _ _ hlt]
    have hsame : sameGrantTuple (s.get ⟨i, hlt⟩) t = sameGrantTuple input t :=
      sameGrantTuple_trans_of hpi
    have hget : s[i] = s.get ⟨i, hlt⟩ := rfl
    by_cases hit : sameGrantTuple input t = true
    · have hpos : 0 < s.countP (fun e => sameGrantTuple e t) :=
        List.countP_pos.mpr ⟨s.get ⟨i, hlt⟩, List.get_mem _ _ _, by rw [hsame]; exact hit⟩
      rw [hget, hsame, hit]
      simp only [if_pos rfl]
      split_ifs with h0 <;> omega
    · have hw : sameGrantTuple input t = false := by
        rcases hv : sameGrantTuple input t with _ | _
        · rfl
        · exact absurd hv hit
      rw [hget, hsame, hw]
      simp [hw]

theorem grantReachable_countP_le_one {μ : Type} {s : List (AchievementRecord μ)}
    (h : GrantReachable s) (t : AchievementRecord μ) :
    s.countP (fun e => sameGrantTuple e t) ≤ 1 := by
  induction h with
  | empty => simp
  | grant input _ ih =>
    rw [grant_countP]
    split_ifs <;> omega

theorem grant_countP_self_post {μ : Type} (s : List (AchievementRecord μ))
    (input : AchievementRecord μ)
    (hle : s.countP (fun e => sameGrantTuple e input) ≤ 1) :
    (grantAchievement s input).countP (fun e => sameGrantTuple e input) = 1 := by
  rw [grant_countP]
  have hself : sameGrantTuple input input = true := decide_eq_true rfl
  rw [if_pos hself]
  split_ifs with h0
  · rfl
  · omega

theorem grant_length_of_exists {μ : Type} (s : List (AchievementRecord μ))
    (input : AchievementRecord μ)
    (hex : ∃ a ∈ s, sameGrantTuple a input = true) :
    (grantAchievement s input).length = s.length := by
  unfold grantAchievement
  rcases hidx : s.findIdx? (fun e => sameGrantTuple e input) with _ | i
  · rw [List.findIdx?_eq_none_iff] at hidx
    obtain ⟨a, ha, hat⟩ := hex
    rw [hidx a ha] at hat
    cases hat
  · exact List.length_set s i input

theorem mem_set_self {α : Type} (l : List α) (i : Nat) (a : α) (h : i < l.length) :
    a ∈ l.set i a := by
  have h2 : i < (l.set i a).length := by rw [List.length_set]; exact h
  have h3 : (l.set i a).get ⟨i, h2⟩ = a := by
    simpa using List.getElem_set_self h2
  have h4 := List.get_mem (l.set i a) i h2
  rwa [h3] at h4

theorem grant_mem {μ : Type} (s : List (AchievementRecord μ))
    (input : AchievementRecord μ) : input ∈ grantAchievement s input := by
  unfold grantAchievement
  rcases hidx : s.findIdx? (fun e => sameGrantTuple e input) with _ | i
  · exact List.mem_append.mpr (Or.inr (List.mem_singleton.mpr rfl))
  · obtain ⟨hlt, -, -⟩ := List.findIdx?_eq_some_iff_getElem.mp hidx
    exact mem_set_self s i input hlt

/-! ## Claim theorem: grant idempotence (C3) -/

/-- C3: on every reachable store state (the repository's `achievements` array
starts empty and is written only by `grantAchievement`), granting twice with
the same `(userId, achievementId, contextKind, contextKey)` tuple leaves
exactly one row for that tuple; the second call inserts nothing (the length
is unchanged) and leaves the second call's record — its `awardedAt` and
`metadata` — as that row. -/
theorem claim_c3 {μ : Type} (s : List (AchievementRecord μ)) (h : GrantReachable s)
    (first second : AchievementRecord μ)
    (htuple : sameGrantTuple second first = true) :
    ((grantAchievement (grantAchievement s first) second).countP
      (fun e => sameGrantTuple e first) = 1) ∧
    (grantAchievement (grantAchievement s first) second).length =
      (grantAchievement s first).length ∧
    second ∈ grantAchievement (grantAchievement s first) second := by
  have hle := grantReachable_countP_le_one h first
  have h1 : (grantAchievement s first).countP (fun e => sameGrantTuple e first) = 1 :=
    grant_countP_self_post s first hle
  refine ⟨?_, ?_, grant_mem _ _⟩
  · rw [grant_countP _ second first, if_pos htuple, h1]
    simp
  · apply grant_length_of_exists
    obtain ⟨a, ha, hat⟩ := List.countP_pos.mp (by rw [h1]; omega)
    refine ⟨a, ha, ?_⟩
    rw [sameGrantTuple_trans_of hat, sameGrantTuple_symm]
    exact htuple

/-- Witness for C3: the empty store, then two grants for the same tuple with
different `awardedAt`. -/
theorem claim_c3_witness :
    (sameGrantTuple
        (⟨7, "boss-raid-20h", .daily, "2024-05-01", 1714608000000, none⟩ :
          AchievementRecord Unit)
        ⟨7, "boss-raid-20h", .daily, "2024-05-01", 1714521600000, none⟩ = true) ∧
    ((grantAchievement (grantAchievement ([] : List (AchievementRecord Unit))
        ⟨7, "boss-raid-20h", .daily, "2024-05-01", 1714521600000, none⟩)
        ⟨7, "boss-raid-20h", .daily, "2024-05-01", 1714608000000, none⟩).countP
      (fun e => sameGrantTuple e
        ⟨7, "boss-raid-20h", .daily, "2024-05-01", 1714521600000, none⟩) = 1) ∧
    (grantAchievement (grantAchievement ([] : List (AchievementRecord Unit))
        ⟨7, "boss-raid-20h", .daily, "2024-05-01", 1714521600000, none⟩)
        ⟨7, "boss-raid-20h", .daily, "2024-05-01", 1714608000000, none⟩).length =
      (grantAchievement ([] : List (AchievementRecord Unit))
        ⟨7, "boss-raid-20h", .daily, "2024-05-01", 1714521600000, none⟩).length := by
  refine ⟨by decide, ?_⟩
  have h := claim_c3 ([] : List (AchievementRecord Unit)) GrantReachable.empty
    ⟨7, "boss-raid-20h", .daily, "2024-05-01", 1714521600000, none⟩
    ⟨7, "boss-raid-20h", .daily, "2024-05-01", 1714608000000, none⟩ (by decide)
  exact ⟨h.1, h.2.1⟩

/-! ## Claim theorem: `formatDuration` totality and clamping (C10) -/

/-- C10: `formatDuration` is total over all JavaScript numbers and never
renders a negative duration: non-finite and negative inputs give `"0m"`, and
a non-negative finite input is rounded to whole minutes
`m = ⌊q/60 + 1/2⌋` and rendered as `"<m>m"` when `m < 60`, `"<h>h"` when the
minute remainder is zero, and `"<h>h <r>m"` otherwise. -/
theorem claim_c10 (x : JSNum) :
    (x.finite = false → formatDuration x = "0m") ∧
    (∀ q : ℚ, x = .num q → q < 0 → formatDuration x = "0m") ∧
    (∀ q : ℚ, x = .num q → 0 ≤ q →
      formatDuration x =
        (if (⌊q / 60 + 1 / 2⌋ : Int) < 60 then toString (⌊q / 60 + 1 / 2⌋ : Int) ++ "m"
         else if (⌊q / 60 + 1 / 2⌋ : Int) % 60 = 0 then
           toString ((⌊q / 60 + 1 / 2⌋ : Int) / 60) ++ "h"
         else toString ((⌊q / 60 + 1 / 2⌋ : Int) / 60) ++ "h " ++
           toString ((⌊q / 60 + 1 / 2⌋ : Int) % 60) ++ "m")) := by
  have hfloor : (⌊(0 : ℚ) / 60 + 1 / 2⌋ : Int) = 0 := by norm_num
  refine ⟨?_, ?_, ?_⟩
  · intro hnf
    have hs : safeSeconds x = 0 := by
      cases x with
      | num q => simp [JSNum.finite] at hnf
      | nan => rfl
      | posInf => rfl
      | negInf => rfl
    unfold formatDuration
    rw [hs, hfloor]
    rfl
  · intro q hx hq
    subst hx
    unfold formatDuration
    rw [show safeSeconds (.num q) = max 0 q from rfl, max_eq_left (le_of_lt hq), hfloor]
    rfl
  · intro q hx hq
    subst hx
    unfold formatDuration
    rw [show safeSeconds (.num q) = max 0 q from rfl, max_eq_right hq]
    have hm0 : (0 : Int) ≤ ⌊q / 60 + 1 / 2⌋ := Int.floor_nonneg.mpr (by positivity)
    by_cases h60 : (⌊q / 60 + 1 / 2⌋ : Int) < 60
    · have hdiv : (⌊q / 60 + 1 / 2⌋ : Int) / 60 = 0 := by omega
      have hmod : (⌊q / 60 + 1 / 2⌋ : Int) % 60 = ⌊q / 60 + 1 / 2⌋ := by omega
      rw [if_pos hdiv, if_pos h60, hmod]
    · have hdiv : ¬ ((⌊q / 60 + 1 / 2⌋ : Int) / 60 = 0) := by omega
      rw [if_neg hdiv, if_neg h60]

/-- Witness for C10 on `NaN`, a negative input, and `3660` seconds. -/
theorem claim_c10_witness :
    formatDuration .nan = "0m" ∧ formatDuration (.num (-5)) = "0m" ∧
    formatDuration (.num 3660) =
      (if (⌊(3660 : ℚ) / 60 + 1 / 2⌋ : Int) < 60 then
        toString (⌊(3660 : ℚ) / 60 + 1 / 2⌋ : Int) ++ "m"
       else if (⌊(3660 : ℚ) / 60 + 1 / 2⌋ : Int) % 60 = 0 then
         toString ((⌊(3660 : ℚ) / 60 + 1 / 2⌋ : Int) / 60) ++ "h"
       else toString ((⌊(3660 : ℚ) / 60 + 1 / 2⌋ : Int) / 60) ++ "h " ++
         toString ((⌊(3660 : ℚ) / 60 + 1 / 2⌋ : Int) % 60) ++ "m") :=
  ⟨(claim_c10 .nan).1 rfl, (claim_c10 _).2.1 (-5) rfl (by norm_num),
    (claim_c10 _).2.2 3660 rfl (by norm_num)⟩

/-! ## Association-list laws for the JS `Map` model -/

theorem getJs_nil {κ β : Type} [DecidableEq κ] (k : κ) :
    getJs ([] : List (κ × β)) k = none := rfl

theorem getJs_cons {κ β : Type} [DecidableEq κ] (k0 : κ) (v0 : β)
    (m : List (κ × β)) (k : κ) :
    getJs ((k0, v0) :: m) k = if k0 = k then some v0 else getJs m k := by
  unfold getJs
  rw [List.find?]
  by_cases h : k0 = k
  · simp [h]
  · simp [h]

theorem getJs_setJs_self {κ β : Type} [DecidableEq κ] (m : List (κ × β))
    (k : κ) (v : β) : getJs (setJs m k v) k = some v := by
  induction m with
  | nil => simp [setJs, getJs_cons]
  | cons kv rest ih =>
    rcases kv with ⟨k0, v0⟩
    unfold setJs
    by_cases h : k0 = k
    · simp [h, getJs_cons]
    · simp only [h, if_false]
      rw [getJs_cons, if_neg h, ih]

theorem getJs_setJs_ne {κ β : Type} [DecidableEq κ] (m : List (κ × β))
    (k k2 : κ) (v : β) (hne : k ≠ k2) : getJs (setJs m k v) k2 = getJs m k2 := by
  induction m with
  | nil => simp [setJs, getJs_cons, getJs_nil, hne]
  | cons kv rest ih =>
    rcases kv with ⟨k0, v0⟩
    unfold setJs
    by_cases h : k0 = k
    · rw [if_pos h, getJs_cons, getJs_cons, if_neg hne, if_neg (h ▸ hne)]
    · rw [if_neg h, getJs_cons, getJs_cons, ih]

/-! ## Honor titles (`honor-titles.ts`, the unnamed part defining
`resolveHonorTitlesByUserId`) -/

def WORKWEEK_WARRIOR_40H : String := "workweek-warrior-40h"

/-- `7 * 24 * 60 * 60 * 1000`. -/
def WEEK_MS : Int := 7 * 24 * 60 * 60 * 1000

/-- The `TITLE_BY_ACHIEVEMENT_ID` record literal, in declaration order. -/
def TITLE_BY_ACHIEVEMENT_ID : List (String × String) :=
  [("quick-boot-4h", "Daybreak Sprinter"),
   ("focus-reactor-6h", "Focus Reactor"),
   ("streak-forge-8h", "Green Wall Initiate"),
   ("overclocked-core-10h", "Overclock Core"),
   ("merge-mountain-12h", "Merge Mountain Slayer"),
   ("night-shift-14h", "Night Shift Sentinel"),
   ("legendary-commit-16h", "Commit Overlord"),
   ("boss-raid-20h", "Boss Raider"),
   ("weekend-warrior-8h", "Weekend Warrior"),
   ("weekend-overdrive-12h", "Weekend Overdrive"),
   ("solo-day-8h", "Solo Blade"),
   ("switchblade-day-8h", "Switchblade"),
   ("mono-language-day-8h", "Mono Tongue"),
   ("language-juggler-day-8h", "Language Juggler"),
   ("deep-focus-day-8h", "Deep Focus Diver"),
   ("workweek-warrior-40h", "Workweek Warrior"),
   ("ship-it-60h", "Release Captain"),
   ("green-wall-80h", "Green Wall Commander"),
   ("graph-overflow-100h", "Graph Breaker"),
   ("matrix-120h", "Matrix Sovereign"),
   ("mono-stack-80h", "Solo Stack Hero"),
   ("mono-stack-100h", "Solo Stack Mythic"),
   ("polyglot-stack-80h", "Polyglot General"),
   ("language-hydra-80h", "Language Hydra"),
   ("language-spectrum-80h", "Spectrum Master"),
   ("editor-arsenal-80h", "Editor Arsenal"),
   ("project-monolith-80h", "Monolith Architect"),
   ("project-nomad-80h", "Project Nomad"),
   ("seven-sunrise-week", "Seven Sunrises"),
   ("iron-week-4h", "Iron Week"),
   ("marathon-pace-8h", "Marathon Coder"),
   ("ultra-pace-10h", "Turbo Engine")]

/-- The `ACHIEVEMENT_PRIORITY` record literal. -/
def ACHIEVEMENT_PRIORITY : List (String × Nat) :=
  [("quick-boot-4h", 1), ("focus-reactor-6h", 2), ("streak-forge-8h", 3),
   ("overclocked-core-10h", 4), ("merge-mountain-12h", 5), ("night-shift-14h", 6),
   ("legendary-commit-16h", 8), ("boss-raid-20h", 10), ("weekend-warrior-8h", 2),
   ("weekend-overdrive-12h", 4), ("solo-day-8h", 3), ("switchblade-day-8h", 4),
   ("mono-language-day-8h", 4), ("language-juggler-day-8h", 5),
   ("deep-focus-day-8h", 4), ("workweek-warrior-40h", 5), ("ship-it-60h", 6),
   ("green-wall-80h", 7), ("graph-overflow-100h", 9), ("matrix-120h", 10),
   ("mono-stack-80h", 7), ("mono-stack-100h", 9), ("polyglot-stack-80h", 7),
   ("language-hydra-80h", 8), ("language-spectrum-80h", 9),
   ("editor-arsenal-80h", 8), ("project-monolith-80h", 7), ("project-nomad-80h", 7),
   ("seven-sunrise-week", 4), ("iron-week-4h", 6), ("marathon-pace-8h", 7),
   ("ultra-pace-10h", 8)]

/-- Days since 1970-01-01 of a proleptic-Gregorian civil date, as computed by
`Date.UTC(y, m-1, d)` (floor division throughout; `Int./` is Euclidean, which
coincides with floor for the positive divisors used). -/
def daysFromCivil (y m d : Int) : Int :=
  let yy := if m ≤ 2 then y - 1 else y
  let era := yy / 400
  let yoe := yy - era * 400
  let mp := (m + 9) % 12
  let doy := (153 * mp + 2) / 5 + d - 1
  let doe := yoe * 365 + yoe / 4 - yoe / 100 + doy
  era * 146097 + doe - 719468

/-- Inverse of `daysFromCivil`: the `(year, month, day)` components a JS
`Date` at UTC midnight of the given epoch day reports. -/
def civilFromDays (z : Int) : Int × Int × Int :=
  let z2 := z + 719468
  let era := z2 / 146097
  let doe := z2 - era * 146097
  let yoe := (doe - doe / 1460 + doe / 36524 - doe / 146096) / 400
  let y := yoe + era * 400
  let doy := doe - (365 * yoe + yoe / 4 - yoe / 100)
  let mp := (5 * doy + 2) / 153
  let d := doy - (153 * mp + 2) / 5 + 1
  let m := mp + (if mp < 10 then 3 else -9)
  (if m ≤ 2 then y + 1 else y, m, d)

/-- `getUTCDay` (0 = Sunday) of a UTC-midnight date given in epoch days:
1970-01-01 was a Thursday (4). -/
def utcDayOfWeek (days : Int) : Int := (days + 4) % 7

/-- `getIsoWeekStartMs`: epoch milliseconds of the Monday starting ISO week
`week` of `year`; `null` when the week number is out of range.  (The
`Number.isInteger` guards always hold in the integer model.) -/
def getIsoWeekStartMs (year week : Int) : Option Int :=
  if week < 1 ∨ 53 < week then none
  else
    let jan4Days := daysFromCivil year 1 4
    let jan4Weekday := if utcDayOfWeek jan4Days = 0 then 7 else utcDayOfWeek jan4Days
    some (jan4Days * 86400000 - (jan4Weekday - 1) * 86400000 + (week - 1) * WEEK_MS)

/-- `parseIsoWeekFromContextKey`: the regex `/(\d{4})-W(\d{2})$/` matched
against the end of the key — four digits, `-W`, two digits. -/
def parseIsoWeekFromContextKey (s : String) : Option Int :=
  match s.data.drop (s.data.length - 8) with
  | [y1, y2, y3, y4, dash, w, w1, w2] =>
    if s.data.length ≥ 8 && y1.isDigit && y2.isDigit && y3.isDigit && y4.isDigit &&
        (dash == '-') && (w == 'W') && w1.isDigit && w2.isDigit then
      getIsoWeekStartMs
        (((y1.toNat - 48) * 1000 + (y2.toNat - 48) * 100 + (y3.toNat - 48) * 10 +
          (y4.toNat - 48) : Nat) : Int)
        (((w1.toNat - 48) * 10 + (w2.toNat - 48) : Nat) : Int)
    else none
  | _ => none

/-- `getLongestConsecutiveWeekStreak`: dedupe the parsed week starts
(`Set` keeps first occurrences), sort numerically ascending, and walk with
the `longest`/`current`/`previous` state. -/
def getLongestConsecutiveWeekStreak (contextKeys : List String) : Nat :=
  let weekStarts := List.insertionSort (fun a b : Int => a ≤ b)
    (dedupFirst (contextKeys.filterMap parseIsoWeekFromContextKey))
  (weekStarts.foldl
    (fun acc weekStart =>
      let current : Nat :=
        match acc.2.2 with
        | some previous => if weekStart - previous = WEEK_MS then acc.2.1 + 1 else 1
        | none => 1
      (max acc.1 current, current, some weekStart))
    ((0, 0, none) : Nat × Nat × Option Int)).1

/-- `getCount`. -/
def getCount (counts : List (String × Nat)) (achievementId : String) : Nat :=
  (getJs counts achievementId).getD 0

/-- `resolveComboHonorTitle`: the early-return chain written as nested
conditionals. -/
def resolveComboHonorTitle (achievementCounts : List (String × Nat))
    (weeklyFortyContextKeys : List String) : Option String :=
  if 8 ≤ getLongestConsecutiveWeekStreak weeklyFortyContextKeys then
    some "Emperor of Weeks"
  else if 4 ≤ getLongestConsecutiveWeekStreak weeklyFortyContextKeys then
    some "Sultan of Weeks"
  else if 2 ≤ getCount achievementCounts "matrix-120h" then some "Matrix Deity"
  else if 2 ≤ getCount achievementCounts "graph-overflow-100h" then
    some "Overflow Breaker"
  else if 4 ≤ getCount achievementCounts "green-wall-80h" then
    some "Eternal Green Wall"
  else if 1 ≤ getCount achievementCounts "language-spectrum-80h" ∧
      1 ≤ getCount achievementCounts "editor-arsenal-80h" then
    some "Master of All Trades"
  else if 1 ≤ getCount achievementCounts "mono-stack-100h" ∧
      1 ≤ getCount achievementCounts "project-monolith-80h" then
    some "Solo Stack Titan"
  else if 2 ≤ getCount achievementCounts "ultra-pace-10h" ∧
      2 ≤ getCount achievementCounts "iron-week-4h" then
    some "Unstoppable Machine"
  else none

/-- An element of the `ranked` array in `resolveTopAchievementTitle`. -/
structure RankedAchievement where
  achievementId : String
  count : Nat
  title : String
  priority : Nat
deriving DecidableEq, Repr

/-- The `resolveTopAchievementTitle` sort comparator as a `≤` test:
priority descending, then count descending, then id `localeCompare`
ascending. -/
def rankedLe (a b : RankedAchievement) : Bool :=
  if a.priority ≠ b.priority then decide (b.priority < a.priority)
  else if a.count ≠ b.count then decide (b.count < a.count)
  else strLe a.achievementId b.achievementId

def RankedLE (a b : RankedAchievement) : Prop := rankedLe a b = true

instance : DecidableRel RankedLE := fun a b => decEq (rankedLe a b) true

theorem rankedLe_iff (a b : RankedAchievement) :
    rankedLe a b = true ↔
      b.priority < a.priority ∨
      (a.priority = b.priority ∧
        (b.count < a.count ∨
          (a.count = b.count ∧ strLe a.achievementId b.achievementId = true))) := by
  unfold rankedLe
  split_ifs with h1 h2
  · constructor
    · intro h
      exact Or.inl (of_decide_eq_true h)
    · rintro (h | ⟨he, _⟩)
      · exact decide_eq_true h
      · exact absurd he h1
  · push_neg at h1
    constructor
    · intro h
      exact Or.inr ⟨h1, Or.inl (of_decide_eq_true h)⟩
    · rintro (h | ⟨_, hs | ⟨he, _⟩⟩)
      · exact absurd h1.symm (Nat.ne_of_lt h)
      · exact decide_eq_true hs
      · exact absurd he h2
  · push_neg at h1 h2
    constructor
    · intro h
      exact Or.inr ⟨h1, Or.inr ⟨h2, h⟩⟩
    · rintro (h | ⟨_, hs | ⟨_, hu⟩⟩)
      · exact absurd h1.symm (Nat.ne_of_lt h)
      · exact absurd hs (by rw [h2]; exact lt_irrefl _)
      · exact hu

instance : IsTotal RankedAchievement RankedLE where
  total a b := by
    unfold RankedLE
    rw [rankedLe_iff, rankedLe_iff]
    rcases Nat.lt_trichotomy a.priority b.priority with h | h | h
    · exact Or.inr (Or.inl h)
    · rcases Nat.lt_trichotomy a.count b.count with h2 | h2 | h2
      · exact Or.inr (Or.inr ⟨h.symm, Or.inl h2⟩)
      · rcases strLe_total a.achievementId b.achievementId with hs | hs
        · exact Or.inl (Or.inr ⟨h, Or.inr ⟨h2, hs⟩⟩)
        · exact Or.inr (Or.inr ⟨h.symm, Or.inr ⟨h2.symm, hs⟩⟩)
      · exact Or.inl (Or.inr ⟨h, Or.inl h2⟩)
    · exact Or.inl (Or.inl h)

instance : IsTrans RankedAchievement RankedLE where
  trans a b c hab hbc := by
    unfold RankedLE at hab hbc ⊢
    rw [rankedLe_iff] at hab hbc ⊢
    rcases hab with h | ⟨e1, hab⟩
    · rcases hbc with h2 | ⟨e2, _⟩
      · exact Or.inl (lt_trans h2 h)
      · exact Or.inl (e2 ▸ h)
    · rcases hbc with h2 | ⟨e2, hbc⟩
      · exact Or.inl (e1 ▸ h2)
      · refine Or.inr ⟨e1.trans e2, ?_⟩
        rcases hab with h3 | ⟨s1, hu1⟩
        · rcases hbc with h4 | ⟨s2, _⟩
          · exact Or.inl (lt_trans h4 h3)
          · exact Or.inl (s2 ▸ h3)
        · rcases hbc with h4 | ⟨s2, hu2⟩
          · exact Or.inl (s1 ▸ h4)
          · exact Or.inr ⟨s1.trans s2, strLe_trans hu1 hu2⟩

/-- The element `resolveTopAchievementTitle` builds for one `(id, count)`
entry of the counts map. -/
def mkRanked (achievementId : String) (count : Nat) : RankedAchievement :=
  ⟨achievementId, count,
    (getJs TITLE_BY_ACHIEVEMENT_ID achievementId).getD "Achievement Hunter",
    (getJs ACHIEVEMENT_PRIORITY achievementId).getD 0⟩

/-- `resolveTopAchievementTitle`. -/
def resolveTopAchievementTitle (achievementCounts : List (String × Nat)) :
    Option String :=
  ((List.insertionSort RankedLE
    ((achievementCounts.filter (fun kv => 0 < kv.2)).map
      (fun kv => mkRanked kv.1 kv.2))).head?).map (fun r => r.title)

/-- `resolveHonorTitle`: combo rules first (a returned combo title is a
non-empty string, hence truthy), then the priority fallback. -/
def resolveHonorTitle (achievementCounts : List (String × Nat))
    (weeklyFortyContextKeys : List String) : Option String :=
  match resolveComboHonorTitle achievementCounts weeklyFortyContextKeys with
  | some comboTitle => some comboTitle
  | none => resolveTopAchievementTitle achievementCounts

/-- `AchievementGrantSummary` (server `repository.ts`). -/
structure AchievementGrantSummary where
  userId : Nat
  achievementId : String
  contextKind : AchievementContextKind
  contextKey : String
  awardedAt : Int
deriving DecidableEq, Repr

/-- One step of the `grants.forEach` loop building `countsByUserId`. -/
def addGrantToCounts (acc : List (Nat × List (String × Nat)))
    (grant : AchievementGrantSummary) : List (Nat × List (String × Nat)) :=
  let userCounts := (getJs acc grant.userId).getD []
  setJs acc grant.userId
    (setJs userCounts grant.achievementId
      ((getJs userCounts grant.achievementId).getD 0 + 1))

/-- One step of the `grants.forEach` loop collecting the weekly
`workweek-warrior-40h` context keys. -/
def addGrantToWeeklyForty (acc : List (Nat × List String))
    (grant : AchievementGrantSummary) : List (Nat × List String) :=
  if grant.achievementId = WORKWEEK_WARRIOR_40H ∧ grant.contextKind = .weekly then
    setJs acc grant.userId (((getJs acc grant.userId).getD []) ++ [grant.contextKey])
  else acc

def countsByUserId (grants : List AchievementGrantSummary) :
    List (Nat × List (String × Nat)) :=
  grants.foldl addGrantToCounts []

def weeklyFortyContextKeysByUserId (grants : List AchievementGrantSummary) :
    List (Nat × List String) :=
  grants.foldl addGrantToWeeklyForty []

/-- `resolveHonorTitlesByUserId`; the returned `Map` is the association list
in `userIds` order. -/
def resolveHonorTitlesByUserId (userIds : List Nat)
    (grants : List AchievementGrantSummary) : List (Nat × Option String) :=
  userIds.map (fun userId =>
    (userId,
      resolveHonorTitle ((getJs (countsByUserId grants) userId).getD [])
        ((getJs (weeklyFortyContextKeysByUserId grants) userId).getD [])))

/-! ## Bridging lemmas for the per-user grant grouping -/

theorem getJs_map_self {β : Type} (userIds : List Nat) (f : Nat → β) (u : Nat)
    (hu : u ∈ userIds) :
    getJs (userIds.map (fun uid => (uid, f uid))) u = some (f u) := by
  induction userIds with
  | nil => cases hu
  | cons a l ih =>
    rw [List.map_cons, getJs_cons]
    by_cases h : a = u
    · rw [if_pos h, h]
    · rw [if_neg h]
      refine ih ?_
      rcases List.mem_cons.mp hu with h2 | h2
      · exact absurd h2.symm h
      · exact h2

/-- The weekly `workweek-warrior-40h` context keys of one user, in grant
order (what the grouping loop accumulates for that user). -/
def userWeeklyFortyKeys (grants : List AchievementGrantSummary) (u : Nat) :
    List String :=
  (grants.filter (fun g => decide (g.userId = u ∧
    g.achievementId = WORKWEEK_WARRIOR_40H ∧ g.contextKind = .weekly))).map
    (fun g => g.contextKey)

theorem weeklyForty_fold (gs : List AchievementGrantSummary) :
    ∀ (acc : List (Nat × List String)) (u : Nat),
      (getJs (gs.foldl addGrantToWeeklyForty acc) u).getD [] =
        ((getJs acc u).getD []) ++ userWeeklyFortyKeys gs u := by
  induction gs with
  | nil => intro acc u; simp [userWeeklyFortyKeys]
  | cons g gs ih =>
    intro acc u
    rw [List.foldl_cons, ih]
    unfold addGrantToWeeklyForty userWeeklyFortyKeys
    by_cases hcond : g.achievementId = WORKWEEK_WARRIOR_40H ∧ g.contextKind = .weekly
    · rw [if_pos hcond]
      by_cases hu : g.userId = u
      · have hget : getJs (setJs acc g.userId
            (((getJs acc g.userId).getD []) ++ [g.contextKey])) u =
            some (((getJs acc g.userId).getD []) ++ [g.contextKey]) := by
          rw [← hu]
          exact getJs_setJs_self acc g.userId _
        rw [hget]
        have hfil : decide (g.userId = u ∧ g.achievementId = WORKWEEK_WARRIOR_40H ∧
            g.contextKind = .weekly) = true := decide_eq_true ⟨hu, hcond⟩
        rw [List.filter_cons, if_pos hfil, List.map_cons, hu]
        simp [userWeeklyFortyKeys]
      · rw [getJs_setJs_ne acc g.userId u _ hu]
        have hfil : decide (g.userId = u ∧ g.achievementId = WORKWEEK_WARRIOR_40H ∧
            g.contextKind = .weekly) = false :=
          decide_eq_false (fun hc => hu hc.1)
        rw [List.filter_cons, if_neg (by rw [hfil]; exact Bool.false_ne_true)]
    · rw [if_neg hcond]
      have hfil : decide (g.userId = u ∧ g.achievementId = WORKWEEK_WARRIOR_40H ∧
          g.contextKind = .weekly) = false :=
        decide_eq_false (fun hc => hcond hc.2)
      rw [List.filter_cons, if_neg (by rw [hfil]; exact Bool.false_ne_true)]

/-! ## Claim theorem: combo rules before fallback (C5) -/

/-- C5: combo rules are evaluated before the priority fallback — whatever the
user's other unlocks are, a longest consecutive-week run of at least 8 among
the user's weekly `workweek-warrior-40h` context keys resolves the top streak
title, and a run of at least 4 (but below 8) the second streak title. -/
theorem claim_c5 (userIds : List Nat) (grants : List AchievementGrantSummary)
    (u : Nat) (hu : u ∈ userIds) :
    (8 ≤ getLongestConsecutiveWeekStreak (userWeeklyFortyKeys grants u) →
      getJs (resolveHonorTitlesByUserId userIds grants) u =
        some (some "Emperor of Weeks")) ∧
    (4 ≤ getLongestConsecutiveWeekStreak (userWeeklyFortyKeys grants u) →
      getLongestConsecutiveWeekStreak (userWeeklyFortyKeys grants u) < 8 →
      getJs (resolveHonorTitlesByUserId userIds grants) u =
        some (some "Sultan of Weeks")) := by
  have hkeys : (getJs (weeklyFortyContextKeysByUserId grants) u).getD [] =
      userWeeklyFortyKeys grants u := by
    have h := weeklyForty_fold grants [] u
    simpa [weeklyFortyContextKeysByUserId] using h
  have hlookup : getJs (resolveHonorTitlesByUserId userIds grants) u =
      some (resolveHonorTitle ((getJs (countsByUserId grants) u).getD [])
        ((getJs (weeklyFortyContextKeysByUserId grants) u).getD [])) :=
    getJs_map_self userIds _ u hu
  rw [hlookup, hkeys]
  constructor
  · intro h8
    unfold resolveHonorTitle resolveComboHonorTitle
    rw [if_pos h8]
  · intro h4 hlt8
    unfold resolveHonorTitle resolveComboHonorTitle
    rw [if_neg (by omega), if_pos h4]

/-- Grants used by the C5 witness: user 1 has an 8-week `workweek-warrior-40h`
streak plus the highest-priority daily unlock, user 2 a 5-week streak. -/
def c5ExampleGrants : List AchievementGrantSummary :=
  [⟨1, "boss-raid-20h", .daily, "2024-01-03", 0⟩,
   ⟨1, "workweek-warrior-40h", .weekly, "2024-W01", 0⟩,
   ⟨1, "workweek-warrior-40h", .weekly, "2024-W02", 0⟩,
   ⟨1, "workweek-warrior-40h", .weekly, "2024-W03", 0⟩,
   ⟨1, "workweek-warrior-40h", .weekly, "2024-W04", 0⟩,
   ⟨1, "workweek-warrior-40h", .weekly, "2024-W05", 0⟩,
   ⟨1, "workweek-warrior-40h", .weekly, "2024-W06", 0⟩,
   ⟨1, "workweek-warrior-40h", .weekly, "2024-W07", 0⟩,
   ⟨1, "workweek-warrior-40h", .weekly, "2024-W08", 0⟩,
   ⟨2, "workweek-warrior-40h", .weekly, "2024-W01", 0⟩,
   ⟨2, "workweek-warrior-40h", .weekly, "2024-W02", 0⟩,
   ⟨2, "workweek-warrior-40h", .weekly, "2024-W03", 0⟩,
   ⟨2, "workweek-warrior-40h", .weekly, "2024-W04", 0⟩,
   ⟨2, "workweek-warrior-40h", .weekly, "2024-W05", 0⟩]

/-- Witness for C5: the 8-week streak resolves "Emperor of Weeks" although a
priority-10 unlock is present, and the 5-week streak "Sultan of Weeks". -/
theorem claim_c5_witness :
    getJs (resolveHonorTitlesByUserId [1, 2] c5ExampleGrants) 1 =
      some (some "Emperor of Weeks") ∧
    getJs (resolveHonorTitlesByUserId [1, 2] c5ExampleGrants) 2 =
      some (some "Sultan of Weeks") := by
  constructor
  · exact (claim_c5 [1, 2] c5ExampleGrants 1 (by decide)).1 (by decide)
  · exact (claim_c5 [1, 2] c5ExampleGrants 2 (by decide)).2 (by decide) (by decide)

/-! ## Characterising the per-user counts map (towards C4) -/

def keysOf {κ β : Type} (m : List (κ × β)) : List κ := m.map (fun kv => kv.1)

theorem getJs_eq_none_iff {κ β : Type} [DecidableEq κ] (m : List (κ × β)) (k : κ) :
    getJs m k = none ↔ k ∉ keysOf m := by
  induction m with
  | nil => simp [getJs_nil, keysOf]
  | cons kv rest ih =>
    rcases kv with ⟨k0, v0⟩
    rw [getJs_cons]
    by_cases h : k0 = k
    · simp [h, keysOf]
    · rw [if_neg h, ih]
      simp only [keysOf, List.map_cons, List.mem_cons, not_or]
      constructor
      · intro h2
        exact ⟨fun he => h he.symm, h2⟩
      · intro h2
        exact h2.2

theorem mem_of_getJs_eq_some {κ β : Type} [DecidableEq κ] (m : List (κ × β))
    (k : κ) (v : β) (h : getJs m k = some v) : (k, v) ∈ m := by
  induction m with
  | nil => simp [getJs_nil] at h
  | cons kv rest ih =>
    rcases kv with ⟨k0, v0⟩
    rw [getJs_cons] at h
    by_cases hk : k0 = k
    · rw [if_pos hk] at h
      cases h
      subst hk
      exact List.mem_cons_self _ _
    · rw [if_neg hk] at h
      exact List.mem_cons_of_mem _ (ih h)

theorem getJs_eq_some_of_mem {κ β : Type} [DecidableEq κ] (m : List (κ × β))
    (k : κ) (v : β) (hnd : (keysOf m).Nodup) (h : (k, v) ∈ m) :
    getJs m k = some v := by
  induction m with
  | nil => cases h
  | cons kv rest ih =>
    rcases kv with ⟨k0, v0⟩
    rw [getJs_cons]
    rcases List.mem_cons.mp h with h1 | h1
    · cases h1
      rw [if_pos rfl]
    · have hnd1 : (k0 :: keysOf rest).Nodup := hnd
      have hk : k0 ≠ k := by
        intro he
        have hkmem : k0 ∈ keysOf rest := by
          rw [he]
          exact List.mem_map_of_mem _ h1
        exact (List.nodup_cons.mp hnd1).1 hkmem
      rw [if_neg hk]
      exact ih (List.nodup_cons.mp hnd1).2 h1

theorem keysOf_setJs {κ β : Type} [DecidableEq κ] (m : List (κ × β)) (k : κ) (v : β) :
    keysOf (setJs m k v) = if k ∈ keysOf m then keysOf m else keysOf m ++ [k] := by
  induction m with
  | nil => simp [setJs, keysOf]
  | cons kv rest ih =>
    rcases kv with ⟨k0, v0⟩
    unfold setJs
    by_cases h : k0 = k
    · subst h
      simp [keysOf]
    · rw [if_neg h]
      have hne : k ≠ k0 := fun he => h he.symm
      simp only [keysOf, List.map_cons] at ih ⊢
      rw [ih]
      by_cases hmem : k ∈ List.map (fun kv => kv.1) rest
      · rw [if_pos hmem, if_pos (List.mem_cons_of_mem _ hmem)]
      · rw [if_neg hmem, if_neg (by simp [hne, hmem])]
        rfl

theorem nodup_keys_setJs {κ β : Type} [DecidableEq κ] (m : List (κ × β)) (k : κ)
    (v : β) (hnd : (keysOf m).Nodup) : (keysOf (setJs m k v)).Nodup := by
  rw [keysOf_setJs]
  by_cases h : k ∈ keysOf m
  · rw [if_pos h]; exact hnd
  · rw [if_neg h, List.nodup_append]
    refine ⟨hnd, List.nodup_singleton _, ?_⟩
    intro a ha hb
    rw [List.mem_singleton] at hb
    exact h (hb ▸ ha)

/-- One step of the inner per-user counts update:
`userCounts.set(id, (userCounts.get(id) ?? 0) + 1)`. -/
def stepCounts (m : List (String × Nat)) (id : String) : List (String × Nat) :=
  setJs m id ((getJs m id).getD 0 + 1)

theorem foldCounts_getD :
    ∀ (ids : List String) (m : List (String × Nat)) (id : String),
      (getJs (ids.foldl stepCounts m) id).getD 0 =
        (getJs m id).getD 0 + ids.count id := by
  intro ids
  induction ids with
  | nil => intro m id; simp
  | cons i rest ih =>
    intro m id
    rw [List.foldl_cons, ih]
    by_cases h : i = id
    · subst h
      rw [show stepCounts m i = setJs m i ((getJs m i).getD 0 + 1) from rfl,
        getJs_setJs_self]
      rw [List.count_cons]
      simp
      omega
    · rw [show stepCounts m i = setJs m i ((getJs m i).getD 0 + 1) from rfl,
        getJs_setJs_ne m i id _ h]
      rw [List.count_cons]
      simp [beq_iff_eq, Ne.symm h]
      exact h

theorem foldCounts_isSome :
    ∀ (ids : List String) (m : List (String × Nat)) (id : String),
      (getJs (ids.foldl stepCounts m) id).isSome =
        ((getJs m id).isSome || decide (id ∈ ids)) := by
  intro ids
  induction ids with
  | nil => intro m id; simp
  | cons i rest ih =>
    intro m id
    rw [List.foldl_cons, ih]
    by_cases h : i = id
    · subst h
      rw [show stepCounts m i = setJs m i ((getJs m i).getD 0 + 1) from rfl,
        getJs_setJs_self]
      simp
    · rw [show stepCounts m i = setJs m i ((getJs m i).getD 0 + 1) from rfl,
        getJs_setJs_ne m i id _ h]
      simp [Ne.symm h]

theorem foldCounts_nodup :
    ∀ (ids : List String) (m : List (String × Nat)),
      (keysOf m).Nodup → (keysOf (ids.foldl stepCounts m)).Nodup := by
  intro ids
  induction ids with
  | nil => intro m h; exact h
  | cons i rest ih =>
    intro m h
    rw [List.foldl_cons]
    exact ih _ (nodup_keys_setJs m i _ h)

theorem countsByUserId_fold (gs : List AchievementGrantSummary) :
    ∀ (acc : List (Nat × List (String × Nat))) (u : Nat),
      (getJs (gs.foldl addGrantToCounts acc) u).getD [] =
        ((gs.filter (fun g => decide (g.userId = u))).map
          (fun g => g.achievementId)).foldl stepCounts ((getJs acc u).getD []) := by
  induction gs with
  | nil => intro acc u; simp
  | cons g gs ih =>
    intro acc u
    rw [List.foldl_cons, ih]
    unfold addGrantToCounts
    by_cases hu : g.userId = u
    · have hget : getJs (setJs acc g.userId
          (setJs ((getJs acc g.userId).getD []) g.achievementId
            ((getJs ((getJs acc g.userId).getD []) g.achievementId).getD 0 + 1))) u =
          some (setJs ((getJs acc g.userId).getD []) g.achievementId
            ((getJs ((getJs acc g.userId).getD []) g.achievementId).getD 0 + 1)) := by
        rw [← hu]
        exact getJs_setJs_self acc g.userId _
      rw [hget]
      rw [List.filter_cons, if_pos (decide_eq_true hu)]
      rw [List.map_cons, List.foldl_cons, hu]
      rfl
    · rw [getJs_setJs_ne acc g.userId u _ hu]
      rw [List.filter_cons,
        if_neg (fun hc => hu (of_decide_eq_true hc))]

/-- The counts map the honor-title resolution sees for one user. -/
def userCountsList (grants : List AchievementGrantSummary) (u : Nat) :
    List (String × Nat) :=
  (getJs (countsByUserId grants) u).getD []

/-- The claim-level unlock count of one `(user, achievement)` pair. -/
def userAchievementCount (grants : List AchievementGrantSummary) (u : Nat)
    (id : String) : Nat :=
  grants.countP (fun g => decide (g.userId = u ∧ g.achievementId = id))

theorem userCountsList_eq (grants : List AchievementGrantSummary) (u : Nat) :
    userCountsList grants u =
      ((grants.filter (fun g => decide (g.userId = u))).map
        (fun g => g.achievementId)).foldl stepCounts [] := by
  have h := countsByUserId_fold grants [] u
  simpa [userCountsList, countsByUserId] using h

theorem count_filter_map_eq (grants : List AchievementGrantSummary) (u : Nat)
    (id : String) :
    ((grants.filter (fun g => decide (g.userId = u))).map
      (fun g => g.achievementId)).count id = userAchievementCount grants u id := by
  rw [List.count, List.countP_map, List.countP_filter]
  unfold userAchievementCount
  apply List.countP_congr
  intro g _
  by_cases h1 : g.userId = u <;> by_cases h2 : g.achievementId = id <;>
    simp [Function.comp, h1, h2]

theorem userCountsList_getD (grants : List AchievementGrantSummary) (u : Nat)
    (id : String) :
    (getJs (userCountsList grants u) id).getD 0 = userAchievementCount grants u id := by
  rw [userCountsList_eq, foldCounts_getD, count_filter_map_eq, getJs_nil]
  simp

theorem userCountsList_isSome (grants : List AchievementGrantSummary) (u : Nat)
    (id : String) :
    (getJs (userCountsList grants u) id).isSome = true ↔
      0 < userAchievementCount grants u id := by
  rw [userCountsList_eq, foldCounts_isSome]
  simp only [getJs_nil, Option.isSome_none, Bool.false_or, decide_eq_true_eq]
  rw [← count_filter_map_eq grants u id]
  exact ⟨fun h => List.count_pos_iff_mem.mpr h, fun h => List.count_pos_iff_mem.mp h⟩

theorem userCountsList_nodup (grants : List AchievementGrantSummary) (u : Nat) :
    (keysOf (userCountsList grants u)).Nodup := by
  rw [userCountsList_eq]
  exact foldCounts_nodup _ [] (by simp [keysOf])

theorem userCountsList_mem_iff (grants : List AchievementGrantSummary) (u : Nat)
    (id : String) (c : Nat) :
    (id, c) ∈ userCountsList grants u ↔
      (c = userAchievementCount grants u id ∧ 0 < c) := by
  constructor
  · intro hmem
    have hsome : getJs (userCountsList grants u) id = some c :=
      getJs_eq_some_of_mem _ _ _ (userCountsList_nodup grants u) hmem
    have hgd := userCountsList_getD grants u id
    rw [hsome] at hgd
    simp only [Option.getD_some] at hgd
    refine ⟨hgd, ?_⟩
    rw [hgd] at hsome ⊢
    exact (userCountsList_isSome grants u id).mp (by rw [hsome]; rfl)
  · rintro ⟨hc, hpos⟩
    have hsome : (getJs (userCountsList grants u) id).isSome = true :=
      (userCountsList_isSome grants u id).mpr (hc ▸ hpos)
    obtain ⟨v, hv⟩ := Option.isSome_iff_exists.mp hsome
    have hgd := userCountsList_getD grants u id
    rw [hv] at hgd
    simp only [Option.getD_some] at hgd
    subst hc
    rw [← hgd]
    exact mem_of_getJs_eq_some _ _ _ hv

/-! ## Determinism infrastructure: the resolution only depends on the grant
multiset -/

theorem mem_dedupFirstAux {α : Type} [DecidableEq α] :
    ∀ (l seen : List α) (x : α),
      x ∈ dedupFirstAux l seen ↔ (x ∈ l ∧ x ∉ seen) := by
  intro l
  induction l with
  | nil => intro seen x; simp [dedupFirstAux]
  | cons a rest ih =>
    intro seen x
    unfold dedupFirstAux
    by_cases ha : a ∈ seen
    · rw [if_pos ha, ih]
      constructor
      · rintro ⟨h1, h2⟩
        exact ⟨List.mem_cons_of_mem _ h1, h2⟩
      · rintro ⟨h1, h2⟩
        rcases List.mem_cons.mp h1 with h3 | h3
        · exact absurd (h3 ▸ ha) h2
        · exact ⟨h3, h2⟩
    · rw [if_neg ha]
      constructor
      · intro hmem
        rcases List.mem_cons.mp hmem with h3 | h3
        · exact ⟨h3 ▸ List.mem_cons_self a rest, h3 ▸ ha⟩
        · obtain ⟨h4, h5⟩ := (ih (a :: seen) x).mp h3
          exact ⟨List.mem_cons_of_mem _ h4,
            fun hc => h5 (List.mem_cons_of_mem _ hc)⟩
      · rintro ⟨h1, h2⟩
        by_cases hxa : x = a
        · exact hxa ▸ List.mem_cons_self a _
        · rcases List.mem_cons.mp h1 with h3 | h3
          · exact absurd h3 hxa
          · refine List.mem_cons_of_mem _ ((ih (a :: seen) x).mpr ⟨h3, ?_⟩)
            intro hc
            rcases List.mem_cons.mp hc with h4 | h4
            · exact hxa h4
            · exact h2 h4

theorem nodup_dedupFirstAux {α : Type} [DecidableEq α] :
    ∀ (l seen : List α), (dedupFirstAux l seen).Nodup := by
  intro l
  induction l with
  | nil => intro seen; exact List.nodup_nil
  | cons a rest ih =>
    intro seen
    unfold dedupFirstAux
    by_cases ha : a ∈ seen
    · rw [if_pos ha]
      exact ih seen
    · rw [if_neg ha]
      refine List.nodup_cons.mpr ⟨?_, ih (a :: seen)⟩
      intro hc
      exact ((mem_dedupFirstAux rest (a :: seen) a).mp hc).2 (List.mem_cons_self _ _)

theorem mem_dedupFirst {α : Type} [DecidableEq α] (l : List α) (x : α) :
    x ∈ dedupFirst l ↔ x ∈ l := by
  unfold dedupFirst
  rw [mem_dedupFirstAux]
  simp

theorem nodup_dedupFirst {α : Type} [DecidableEq α] (l : List α) :
    (dedupFirst l).Nodup :=
  nodup_dedupFirstAux l []

theorem dedupFirst_perm_of_perm {α : Type} [DecidableEq α] {l1 l2 : List α}
    (h : l1.Perm l2) : (dedupFirst l1).Perm (dedupFirst l2) := by
  rw [List.perm_ext_iff_of_nodup (nodup_dedupFirst l1) (nodup_dedupFirst l2)]
  intro a
  rw [mem_dedupFirst, mem_dedupFirst]
  exact h.mem_iff

instance : IsAntisymm Int (fun a b : Int => a ≤ b) :=
  ⟨fun _ _ h1 h2 => le_antisymm h1 h2⟩

/-- The streak computation is invariant under permuting the context keys:
dedup-then-numeric-sort canonicalises the list. -/
theorem streak_perm {k1 k2 : List String} (h : k1.Perm k2) :
    getLongestConsecutiveWeekStreak k1 = getLongestConsecutiveWeekStreak k2 := by
  unfold getLongestConsecutiveWeekStreak
  have hsorteq : List.insertionSort (fun a b : Int => a ≤ b)
      (dedupFirst (k1.filterMap parseIsoWeekFromContextKey)) =
      List.insertionSort (fun a b : Int => a ≤ b)
      (dedupFirst (k2.filterMap parseIsoWeekFromContextKey)) := by
    exact @List.eq_of_perm_of_sorted Int (fun a b : Int => a ≤ b) _ _ _
      (((List.perm_insertionSort _ _).trans
        (dedupFirst_perm_of_perm (h.filterMap _))).trans
        (List.perm_insertionSort _ _).symm)
      (List.sorted_insertionSort _ _) (List.sorted_insertionSort _ _)
  rw [hsorteq]

theorem rankedLe_refl (a : RankedAchievement) : rankedLe a a = true := by
  unfold rankedLe
  simp [strLe_refl]

theorem userCountsList_perm {g2 g1 : List AchievementGrantSummary}
    (h : g2.Perm g1) (u : Nat) :
    (userCountsList g2 u).Perm (userCountsList g1 u) := by
  rw [List.perm_ext_iff_of_nodup
    (List.Nodup.of_map _ (userCountsList_nodup g2 u))
    (List.Nodup.of_map _ (userCountsList_nodup g1 u))]
  intro x
  rcases x with ⟨id, c⟩
  rw [userCountsList_mem_iff, userCountsList_mem_iff]
  have hc : userAchievementCount g2 u id = userAchievementCount g1 u id :=
    h.countP_eq _
  rw [hc]

theorem getJs_userCountsList_congr {g2 g1 : List AchievementGrantSummary}
    (h : g2.Perm g1) (u : Nat) (id : String) :
    getJs (userCountsList g2 u) id = getJs (userCountsList g1 u) id := by
  have hc : userAchievementCount g2 u id = userAchievementCount g1 u id :=
    h.countP_eq _
  rcases h2 : getJs (userCountsList g2 u) id with _ | v2 <;>
    rcases h1 : getJs (userCountsList g1 u) id with _ | v1
  · rfl
  · exfalso
    have hp : 0 < userAchievementCount g1 u id :=
      (userCountsList_isSome g1 u id).mp (by rw [h1]; rfl)
    have hs := (userCountsList_isSome g2 u id).mpr (by rw [hc]; exact hp)
    rw [h2] at hs
    cases hs
  · exfalso
    have hp : 0 < userAchievementCount g2 u id :=
      (userCountsList_isSome g2 u id).mp (by rw [h2]; rfl)
    have hs := (userCountsList_isSome g1 u id).mpr (by rw [← hc]; exact hp)
    rw [h1] at hs
    cases hs
  · have e2 := userCountsList_getD g2 u id
    rw [h2] at e2
    simp only [Option.getD_some] at e2
    have e1 := userCountsList_getD g1 u id
    rw [h1] at e1
    simp only [Option.getD_some] at e1
    exact congrArg some (e2.trans (hc.trans e1.symm))

theorem rankedLe_antisymm_id {a b : RankedAchievement} (h1 : rankedLe a b = true)
    (h2 : rankedLe b a = true) : a.achievementId = b.achievementId := by
  rw [rankedLe_iff] at h1 h2
  rcases h1 with h1 | ⟨e1, h1⟩
  · rcases h2 with h2 | ⟨e2, _⟩
    · exact absurd h1 (lt_asymm h2)
    · exact absurd h1 (by rw [e2]; exact lt_irrefl _)
  · rcases h2 with h2 | ⟨e2, h2⟩
    · exact absurd h2 (by rw [e1]; exact lt_irrefl _)
    · rcases h1 with hc1 | ⟨ec1, hs1⟩
      · rcases h2 with hc2 | ⟨ec2, _⟩
        · exact absurd hc1 (lt_asymm hc2)
        · exact absurd hc1 (by rw [ec2]; exact lt_irrefl _)
      · rcases h2 with hc2 | ⟨ec2, hs2⟩
        · exact absurd hc2 (by rw [ec1]; exact lt_irrefl _)
        · exact strLe_antisymm hs1 hs2

theorem sortedHead_title_eq (M1 M2 : List RankedAchievement) (hperm : M1.Perm M2)
    (hwf : ∀ x ∈ M1, x.title =
      (getJs TITLE_BY_ACHIEVEMENT_ID x.achievementId).getD "Achievement Hunter") :
    ((List.insertionSort RankedLE M1).head?).map (fun r => r.title) =
    ((List.insertionSort RankedLE M2).head?).map (fun r => r.title) := by
  rcases hL1 : List.insertionSort RankedLE M1 with _ | ⟨b1, t1⟩ <;>
    rcases hL2 : List.insertionSort RankedLE M2 with _ | ⟨b2, t2⟩
  · rfl
  · exfalso
    have hm1 : M1.length = 0 := by
      rw [← (List.perm_insertionSort RankedLE M1).length_eq, hL1]
      rfl
    have hm2 : (b2 :: t2).length = M2.length := by
      rw [← hL2, (List.perm_insertionSort RankedLE M2).length_eq]
    rw [← hperm.length_eq, hm1] at hm2
    simp at hm2
  · exfalso
    have hm2 : M2.length = 0 := by
      rw [← (List.perm_insertionSort RankedLE M2).length_eq, hL2]
      rfl
    have hm1 : (b1 :: t1).length = M1.length := by
      rw [← hL1, (List.perm_insertionSort RankedLE M1).length_eq]
    rw [hperm.length_eq, hm2] at hm1
    simp at hm1
  · have hb1M1 : b1 ∈ M1 := by
      refine (List.perm_insertionSort RankedLE M1).mem_iff.mp ?_
      rw [hL1]
      exact List.mem_cons_self _ _
    have hb2M2 : b2 ∈ M2 := by
      refine (List.perm_insertionSort RankedLE M2).mem_iff.mp ?_
      rw [hL2]
      exact List.mem_cons_self _ _
    have hb1L2 : b1 ∈ b2 :: t2 := by
      rw [← hL2]
      exact (List.perm_insertionSort RankedLE M2).mem_iff.mpr (hperm.mem_iff.mp hb1M1)
    have hb2L1 : b2 ∈ b1 :: t1 := by
      rw [← hL1]
      exact (List.perm_insertionSort RankedLE M1).mem_iff.mpr (hperm.mem_iff.mpr hb2M2)
    have hs1 : List.Sorted RankedLE (b1 :: t1) := by
      rw [← hL1]
      exact List.sorted_insertionSort _ _
    have hs2 : List.Sorted RankedLE (b2 :: t2) := by
      rw [← hL2]
      exact List.sorted_insertionSort _ _
    have hle21 : rankedLe b2 b1 = true := by
      rcases List.mem_cons.mp hb1L2 with he | ht
      · rw [he]
        exact rankedLe_refl _
      · exact List.rel_of_sorted_cons hs2 b1 ht
    have hle12 : rankedLe b1 b2 = true := by
      rcases List.mem_cons.mp hb2L1 with he | ht
      · rw [he]
        exact rankedLe_refl _
      · exact List.rel_of_sorted_cons hs1 b2 ht
    have hid : b1.achievementId = b2.achievementId := rankedLe_antisymm_id hle12 hle21
    have ht1 := hwf b1 hb1M1
    have ht2 := hwf b2 (hperm.mem_iff.mpr hb2M2)
    show some b1.title = some b2.title
    rw [ht1, ht2, hid]

theorem resolveTop_perm {c1 c2 : List (String × Nat)} (hperm : c1.Perm c2) :
    resolveTopAchievementTitle c1 = resolveTopAchievementTitle c2 := by
  unfold resolveTopAchievementTitle
  apply sortedHead_title_eq
  · exact (hperm.filter _).map _
  · intro x hx
    obtain ⟨kv, -, hkv⟩ := List.mem_map.mp hx
    rw [← hkv]
    rfl

/-- Full determinism: `resolveHonorTitlesByUserId` only depends on the grant
list up to permutation (the "grant set"). -/
theorem resolveHonorTitlesByUserId_perm (userIds : List Nat)
    {g2 g1 : List AchievementGrantSummary} (h : g2.Perm g1) :
    resolveHonorTitlesByUserId userIds g2 = resolveHonorTitlesByUserId userIds g1 := by
  unfold resolveHonorTitlesByUserId
  apply List.map_congr_left
  intro uid _
  have hkeys2 : (getJs (weeklyFortyContextKeysByUserId g2) uid).getD [] =
      userWeeklyFortyKeys g2 uid := by
    simpa [weeklyFortyContextKeysByUserId] using weeklyForty_fold g2 [] uid
  have hkeys1 : (getJs (weeklyFortyContextKeysByUserId g1) uid).getD [] =
      userWeeklyFortyKeys g1 uid := by
    simpa [weeklyFortyContextKeysByUserId] using weeklyForty_fold g1 [] uid
  have hwperm : (userWeeklyFortyKeys g2 uid).Perm (userWeeklyFortyKeys g1 uid) :=
    (h.filter _).map _
  have hstreak := streak_perm hwperm
  have hcperm := userCountsList_perm h uid
  have hget := getJs_userCountsList_congr h uid
  have hcombo : resolveComboHonorTitle (userCountsList g2 uid)
      (userWeeklyFortyKeys g2 uid) =
      resolveComboHonorTitle (userCountsList g1 uid)
      (userWeeklyFortyKeys g1 uid) := by
    unfold resolveComboHonorTitle getCount
    rw [hstreak]
    simp only [hget]
  have hcnt2 : (getJs (countsByUserId g2) uid).getD [] = userCountsList g2 uid := rfl
  have hcnt1 : (getJs (countsByUserId g1) uid).getD [] = userCountsList g1 uid := rfl
  rw [hcnt2, hcnt1, hkeys2, hkeys1]
  unfold resolveHonorTitle
  rw [hcombo]
  rcases hcv : resolveComboHonorTitle (userCountsList g1 uid)
      (userWeeklyFortyKeys g1 uid) with _ | t
  · exact congrArg (Prod.mk uid) (resolveTop_perm hcperm)
  · rfl

/-! ## Claim theorem: priority fallback for honor titles (C4) -/

/-- C4: when no combo rule matches, the resolved title for a user is the
title of the maximal unlocked achievement under (priority desc, unlock count
desc, lexical id asc); a user with zero grants resolves to `null`; and the
whole resolution depends only on the grant set (it is invariant under
permutation of the grant list). -/
theorem claim_c4 (userIds : List Nat) (grants : List AchievementGrantSummary)
    (u : Nat) (hu : u ∈ userIds)
    (hcombo : resolveComboHonorTitle (userCountsList grants u)
      (userWeeklyFortyKeys grants u) = none) :
    ((∀ g ∈ grants, g.userId ≠ u) →
      getJs (resolveHonorTitlesByUserId userIds grants) u = some none) ∧
    ((∃ g ∈ grants, g.userId = u) →
      ∃ best : RankedAchievement,
        getJs (resolveHonorTitlesByUserId userIds grants) u = some (some best.title) ∧
        0 < userAchievementCount grants u best.achievementId ∧
        best = mkRanked best.achievementId
          (userAchievementCount grants u best.achievementId) ∧
        (∀ id : String, 0 < userAchievementCount grants u id →
          rankedLe best (mkRanked id (userAchievementCount grants u id)) = true)) ∧
    (∀ grants2 : List AchievementGrantSummary, grants2.Perm grants →
      resolveHonorTitlesByUserId userIds grants2 =
        resolveHonorTitlesByUserId userIds grants) := by
  have hkeys : (getJs (weeklyFortyContextKeysByUserId grants) u).getD [] =
      userWeeklyFortyKeys grants u := by
    simpa [weeklyFortyContextKeysByUserId] using weeklyForty_fold grants [] u
  have hvalue : getJs (resolveHonorTitlesByUserId userIds grants) u =
      some (resolveHonorTitle (userCountsList grants u)
        (userWeeklyFortyKeys grants u)) := by
    unfold resolveHonorTitlesByUserId
    rw [getJs_map_self userIds _ u hu, hkeys]
    rfl
  have hres : resolveHonorTitle (userCountsList grants u)
      (userWeeklyFortyKeys grants u) =
      resolveTopAchievementTitle (userCountsList grants u) := by
    unfold resolveHonorTitle
    rw [hcombo]
  refine ⟨?_, ?_, fun g2 hperm => resolveHonorTitlesByUserId_perm userIds hperm⟩
  · intro hnone
    have hempty : userCountsList grants u = [] := by
      rw [userCountsList_eq]
      have hfil : grants.filter (fun g => decide (g.userId = u)) = [] :=
        List.filter_eq_nil.mpr (fun g hg => by simpa using hnone g hg)
      rw [hfil]
      rfl
    rw [hvalue, hres, hempty]
    rfl
  · rintro ⟨g, hg, hgu⟩
    have hcnt : 0 < userAchievementCount grants u g.achievementId :=
      List.countP_pos.mpr ⟨g, hg, decide_eq_true ⟨hgu, rfl⟩⟩
    have hmem_counts : (g.achievementId,
        userAchievementCount grants u g.achievementId) ∈ userCountsList grants u :=
      (userCountsList_mem_iff grants u _ _).mpr ⟨rfl, hcnt⟩
    have hmem_M : mkRanked g.achievementId
        (userAchievementCount grants u g.achievementId) ∈
        ((userCountsList grants u).filter (fun kv => 0 < kv.2)).map
          (fun kv => mkRanked kv.1 kv.2) := by
      refine List.mem_map.mpr
        ⟨(g.achievementId, userAchievementCount grants u g.achievementId), ?_, rfl⟩
      exact List.mem_filter.mpr ⟨hmem_counts, decide_eq_true hcnt⟩
    rcases hL : List.insertionSort RankedLE
        (((userCountsList grants u).filter (fun kv => 0 < kv.2)).map
          (fun kv => mkRanked kv.1 kv.2)) with _ | ⟨best, tail⟩
    · exfalso
      have hmm := (List.perm_insertionSort RankedLE _).mem_iff.mpr hmem_M
      rw [hL] at hmm
      cases hmm
    · have hbestM : best ∈ ((userCountsList grants u).filter (fun kv => 0 < kv.2)).map
          (fun kv => mkRanked kv.1 kv.2) := by
        refine (List.perm_insertionSort RankedLE _).mem_iff.mp ?_
        rw [hL]
        exact List.mem_cons_self _ _
      obtain ⟨kv, hkvf, hkv⟩ := List.mem_map.mp hbestM
      have hkvc := List.mem_filter.mp hkvf
      obtain ⟨hkvcount, hkvpos⟩ := (userCountsList_mem_iff grants u kv.1 kv.2).mp hkvc.1
      refine ⟨best, ?_, ?_, ?_, ?_⟩
      · rw [hvalue, hres]
        unfold resolveTopAchievementTitle
        rw [hL]
        rfl
      · have hbid : best.achievementId = kv.1 := by rw [← hkv]; rfl
        rw [hbid, ← hkvcount]
        exact hkvpos
      · rw [← hkv, show (mkRanked kv.1 kv.2).achievementId = kv.1 from rfl,
          ← hkvcount]
      · intro id hid
        have hmem_id : mkRanked id (userAchievementCount grants u id) ∈
            ((userCountsList grants u).filter (fun kv => 0 < kv.2)).map
              (fun kv => mkRanked kv.1 kv.2) := by
          refine List.mem_map.mpr ⟨(id, userAchievementCount grants u id), ?_, rfl⟩
          exact List.mem_filter.mpr
            ⟨(userCountsList_mem_iff grants u _ _).mpr ⟨rfl, hid⟩, decide_eq_true hid⟩
        have hmem_L : mkRanked id (userAchievementCount grants u id) ∈ best :: tail := by
          rw [← hL]
          exact (List.perm_insertionSort RankedLE _).mem_iff.mpr hmem_id
        rcases List.mem_cons.mp hmem_L with he | ht
        · rw [← he]
          exact rankedLe_refl _
        · have hsorted : List.Sorted RankedLE (best :: tail) := by
            rw [← hL]
            exact List.sorted_insertionSort _ _
          exact List.rel_of_sorted_cons hsorted _ ht

/-- Grants used by the C4 witness: user 7 has two daily unlocks and no combo
match; user 9 has none. -/
def c4ExampleGrants : List AchievementGrantSummary :=
  [⟨7, "boss-raid-20h", .daily, "2024-05-01", 0⟩,
   ⟨7, "quick-boot-4h", .daily, "2024-05-02", 0⟩]

/-- Witness for C4: the fallback picks a maximal unlocked achievement for
user 7, user 9 resolves to `null`, and swapping the grant list leaves the
result unchanged. -/
theorem claim_c4_witness :
    (∃ best : RankedAchievement,
      getJs (resolveHonorTitlesByUserId [7, 9] c4ExampleGrants) 7 =
        some (some best.title) ∧
      0 < userAchievementCount c4ExampleGrants 7 best.achievementId ∧
      best = mkRanked best.achievementId
        (userAchievementCount c4ExampleGrants 7 best.achievementId) ∧
      (∀ id : String, 0 < userAchievementCount c4ExampleGrants 7 id →
        rankedLe best (mkRanked id (userAchievementCount c4ExampleGrants 7 id)) =
          true)) ∧
    getJs (resolveHonorTitlesByUserId [7, 9] c4ExampleGrants) 9 = some none ∧
    resolveHonorTitlesByUserId [7, 9]
        [⟨7, "quick-boot-4h", .daily, "2024-05-02", 0⟩,
         ⟨7, "boss-raid-20h", .daily, "2024-05-01", 0⟩] =
      resolveHonorTitlesByUserId [7, 9] c4ExampleGrants := by
  refine ⟨?_, ?_, ?_⟩
  · exact (claim_c4 [7, 9] c4ExampleGrants 7 (by decide) (by decide)).2.1
      ⟨⟨7, "boss-raid-20h", .daily, "2024-05-01", 0⟩, by decide, rfl⟩
  · exact (claim_c4 [7, 9] c4ExampleGrants 9 (by decide) (by decide)).1 (by decide)
  · exact (claim_c4 [7, 9] c4ExampleGrants 7 (by decide) (by decide)).2.2
      _ (List.Perm.swap _ _ _)

/-! ## The daily leaderboard route (`buildDailyLeaderboard` in the server
app).  The awaited store results (`getGroupPeerIds`, `getUsersByIds`,
`getDailyStats`, `getIncomingFriendIds`) are passed in as values/functions,
and `resolveDateKeyForUser` — whose `toDateKeyInTimeZone`/`shiftDateKey`
helpers live in `date-key.ts`, outside these sources — is abstracted as an
arbitrary `resolveKey : Option String → String` for the fixed base date and
offset, so every theorem below holds for every date-key resolution. -/

inductive StatsVisibility where
  | everyone
  | friends
  | noOne
deriving DecidableEq, Repr

/-- The user record fields `buildDailyLeaderboard` reads. -/
structure StoredUser where
  id : Nat
  wakawarsUsername : String
  wakatimeTimezone : Option String
  statsVisibility : StatsVisibility
  isCompeting : Bool
deriving DecidableEq, Repr

/-- The viewer's `UserConfig` fields used: `id`, `wakawarsUsername`,
`wakatimeTimezone` and the friend ids (`config.friends.map(f => f.id)`). -/
structure DLConfig where
  id : Nat
  wakawarsUsername : String
  wakatimeTimezone : Option String
  friendIds : List Nat
deriving DecidableEq, Repr

/-- A stored daily stat row as returned by `store.getDailyStats`. -/
structure DailyStatRow where
  userId : Nat
  totalSeconds : Int
  status : DailyStatStatus
  errorMsg : Option String
  fetchedAt : Int
deriving DecidableEq, Repr

/-- Lookup in a JS `Map` built by `new Map(list.map(r => [key r, r]))`:
the last record with the key wins. -/
def lastWithId (records : List StoredUser) (i : Nat) : Option StoredUser :=
  records.foldl (fun acc r => if r.id = i then some r else acc) none

/-- `statsByUserId` lookup: last row with the user id wins. -/
def lastStatFor (rows : List DailyStatRow) (i : Nat) : Option DailyStatRow :=
  rows.foldl (fun acc r => if r.userId = i then some r else acc) none

/-- `Array.from(new Set([config.id, ...friendIds, ...groupPeerIds]))`. -/
def dlUserIds (config : DLConfig) (getGroupPeerIds : List Nat) : List Nat :=
  dedupFirst (config.id :: (dedupFirst config.friendIds ++ dedupFirst getGroupPeerIds))

/-- `userIds.map(id => usersById.get(id)).filter(Boolean)`. -/
def dlUsers (config : DLConfig) (getGroupPeerIds : List Nat)
    (getUsersByIds : List Nat → List StoredUser) : List StoredUser :=
  (dlUserIds config getGroupPeerIds).filterMap
    (lastWithId (getUsersByIds (dlUserIds config getGroupPeerIds)))

/-- The per-date-key id groups, then the flattened `getDailyStats` results. -/
def dlDailyStats (config : DLConfig) (getGroupPeerIds : List Nat)
    (getUsersByIds : List Nat → List StoredUser)
    (getDailyStats : String → List Nat → List DailyStatRow)
    (resolveKey : Option String → String) : List DailyStatRow :=
  (((dlUsers config getGroupPeerIds getUsersByIds).foldl
      (fun acc user =>
        setJs acc (resolveKey user.wakatimeTimezone)
          (((getJs acc (resolveKey user.wakatimeTimezone)).getD []) ++ [user.id]))
      []).map (fun g => getDailyStats g.1 g.2)).join

/-- `canView`: self, or `everyone`, or `friends` with mutual friendship or a
shared group. -/
def dlCanView (friendIds groupPeerIds incomingFriendIds : List Nat)
    (user : StoredUser) (isSelf : Bool) : Bool :=
  isSelf || user.statsVisibility == .everyone ||
    (user.statsVisibility == .friends &&
      ((friendIds.contains user.id && incomingFriendIds.contains user.id) ||
        groupPeerIds.contains user.id))

/-- `buildDailyStat` (the source returns the `private` row early on
`!canView`; written here as the positive branch of the same conditional). -/
def dlBuildDailyStat (friendIds groupPeerIds incomingFriendIds : List Nat)
    (rows : List DailyStatRow) (user : StoredUser) (isSelf : Bool) : DailyStat :=
  if dlCanView friendIds groupPeerIds incomingFriendIds user isSelf then
    match lastStatFor rows user.id with
    | none => ⟨user.wakawarsUsername, none, 0, .error, some "No stats synced yet"⟩
    | some s => ⟨user.wakawarsUsername, none, s.totalSeconds, s.status, s.errorMsg⟩
  else ⟨user.wakawarsUsername, none, 0, .isPrivate, none⟩

/-- The response record (`updatedAt` kept as the epoch value the ISO string
is rendered from). -/
structure DLResponse where
  date : String
  updatedAtEpoch : Int
  entries : List LeaderboardEntry
  selfEntry : Option LeaderboardEntry
deriving Repr

/-- `buildDailyLeaderboard` (server app, lines 832-945). -/
def buildDailyLeaderboard (config : DLConfig) (getGroupPeerIds : List Nat)
    (getUsersByIds : List Nat → List StoredUser)
    (getDailyStats : String → List Nat → List DailyStatRow)
    (getIncomingFriendIds : List Nat)
    (resolveKey : Option String → String) (nowMs : Int) : DLResponse :=
  let groupPeerIds := dedupFirst getGroupPeerIds
  let friendIds := dedupFirst config.friendIds
  let users := dlUsers config getGroupPeerIds getUsersByIds
  let dailyStats := dlDailyStats config getGroupPeerIds getUsersByIds
    getDailyStats resolveKey
  let selfUser := users.find? (fun user => user.id = config.id)
  let selfStat := selfUser.map (fun user =>
    dlBuildDailyStat friendIds groupPeerIds getIncomingFriendIds dailyStats user true)
  let leaderboardUsers := users.filter (fun user => user.isCompeting)
  let stats := leaderboardUsers.map (fun user =>
    dlBuildDailyStat friendIds groupPeerIds getIncomingFriendIds dailyStats user
      (user.id == config.id))
  let computedEntries := computeLeaderboard stats config.wakawarsUsername
  let entries :=
    match selfStat with
    | none => computedEntries
    | some s => computedEntries.map (fun e =>
        { e with deltaSeconds := e.totalSeconds - s.totalSeconds })
  let selfEntry :=
    match entries.find? (fun e => e.username = config.wakawarsUsername) with
    | some e => some e
    | none => selfStat.map (fun s => ⟨s, none, 0⟩)
  let updatedAtEpoch :=
    match dailyStats with
    | [] => nowMs
    | r :: rest => (rest.map (fun x => x.fetchedAt)).foldl max r.fetchedAt
  ⟨resolveKey config.wakatimeTimezone, updatedAtEpoch, entries, selfEntry⟩

/-- The `selfStat` intermediate of `buildDailyLeaderboard`. -/
def dlSelfStat (config : DLConfig) (gp : List Nat)
    (gU : List Nat → List StoredUser) (gD : String → List Nat → List DailyStatRow)
    (inc : List Nat) (rk : Option String → String) : Option DailyStat :=
  ((dlUsers config gp gU).find? (fun user => user.id = config.id)).map
    (fun user => dlBuildDailyStat (dedupFirst config.friendIds) (dedupFirst gp) inc
      (dlDailyStats config gp gU gD rk) user true)

/-- The `stats` intermediate of `buildDailyLeaderboard`. -/
def dlStats (config : DLConfig) (gp : List Nat)
    (gU : List Nat → List StoredUser) (gD : String → List Nat → List DailyStatRow)
    (inc : List Nat) (rk : Option String → String) : List DailyStat :=
  ((dlUsers config gp gU).filter (fun user => user.isCompeting)).map
    (fun user => dlBuildDailyStat (dedupFirst config.friendIds) (dedupFirst gp) inc
      (dlDailyStats config gp gU gD rk) user (user.id == config.id))

theorem buildDailyLeaderboard_entries_eq (config : DLConfig) (gp : List Nat)
    (gU : List Nat → List StoredUser) (gD : String → List Nat → List DailyStatRow)
    (inc : List Nat) (rk : Option String → String) (now : Int) :
    (buildDailyLeaderboard config gp gU gD inc rk now).entries =
      match dlSelfStat config gp gU gD inc rk with
      | none => computeLeaderboard (dlStats config gp gU gD inc rk)
          config.wakawarsUsername
      | some s => (computeLeaderboard (dlStats config gp gU gD inc rk)
          config.wakawarsUsername).map
          (fun e => { e with deltaSeconds := e.totalSeconds - s.totalSeconds }) := rfl

theorem dlBuildDailyStat_username (FI GP INC : List Nat) (rows : List DailyStatRow)
    (u : StoredUser) (b : Bool) :
    (dlBuildDailyStat FI GP INC rows u b).username = u.wakawarsUsername := by
  unfold dlBuildDailyStat
  by_cases h : dlCanView FI GP INC u b = true
  · rw [if_pos h]
    rcases lastStatFor rows u.id with _ | s <;> rfl
  · rw [if_neg h]

theorem dlBuildDailyStat_private (FI GP INC : List Nat) (rows : List DailyStatRow)
    (u : StoredUser) (b : Bool) (h : dlCanView FI GP INC u b = false) :
    dlBuildDailyStat FI GP INC rows u b =
      ⟨u.wakawarsUsername, none, 0, .isPrivate, none⟩ := by
  unfold dlBuildDailyStat
  rw [if_neg (by rw [h]; exact Bool.false_ne_true)]

theorem dlBuildDailyStat_noStat (FI GP INC : List Nat) (rows : List DailyStatRow)
    (u : StoredUser) (b : Bool) (h : dlCanView FI GP INC u b = true)
    (h2 : lastStatFor rows u.id = none) :
    dlBuildDailyStat FI GP INC rows u b =
      ⟨u.wakawarsUsername, none, 0, .error, some "No stats synced yet"⟩ := by
  unfold dlBuildDailyStat
  rw [if_pos h, h2]

theorem dlBuildDailyStat_some (FI GP INC : List Nat) (rows : List DailyStatRow)
    (u : StoredUser) (b : Bool) (s : DailyStatRow)
    (h : dlCanView FI GP INC u b = true) (h2 : lastStatFor rows u.id = some s) :
    dlBuildDailyStat FI GP INC rows u b =
      ⟨u.wakawarsUsername, none, s.totalSeconds, s.status, s.errorMsg⟩ := by
  unfold dlBuildDailyStat
  rw [if_pos h, h2]

/-! ## Claim theorems: daily leaderboard never drops a row (C8) -/

/-- C8 as stated is false: a friend who is not competing (or a graph id with
no stored user record) gets no leaderboard entry at all.  Here `bob` (id 2)
is `alice`'s friend, fully visible, but not competing, and id 3 has no user
record; the response contains no entry for either. -/
theorem claim_c8_counterexample :
    (2 ∈ (⟨1, "alice", none, [2, 3]⟩ : DLConfig).friendIds ∧
      3 ∈ (⟨1, "alice", none, [2, 3]⟩ : DLConfig).friendIds ∧
      (2 ∈ (((fun _ : List Nat =>
        [(⟨1, "alice", none, .everyone, true⟩ : StoredUser),
         ⟨2, "bob", none, .everyone, false⟩]) [1, 2, 3]).map
          (fun r => r.id))) ∧
      ∀ e ∈ (buildDailyLeaderboard ⟨1, "alice", none, [2, 3]⟩ []
          (fun _ => [⟨1, "alice", none, .everyone, true⟩,
            ⟨2, "bob", none, .everyone, false⟩])
          (fun _ _ => []) [2, 3] (fun _ => "2024-05-01") 0).entries,
        e.username ≠ "bob") ∧
    (buildDailyLeaderboard ⟨1, "alice", none, [2, 3]⟩ []
        (fun _ => [⟨1, "alice", none, .everyone, true⟩,
          ⟨2, "bob", none, .everyone, false⟩])
        (fun _ _ => []) [2, 3] (fun _ => "2024-05-01") 0).entries.length = 1 := by
  refine ⟨⟨by decide, by decide, by decide, ?_⟩, by decide⟩
  decide

/-- C8 (amended): for every store response, every user record found for the
viewer's friend/group graph that is competing yields exactly one entry per
user slot (the entry count equals the competing-user count, so nothing is
dropped and the request never fails), and that user's entry carries the
classified status: `private` when not viewable, `error` with
"No stats synced yet" when no stat row exists, otherwise the stored row's
status. -/
theorem claim_c8 (config : DLConfig) (gp : List Nat)
    (gU : List Nat → List StoredUser) (gD : String → List Nat → List DailyStatRow)
    (inc : List Nat) (rk : Option String → String) (now : Int) :
    (buildDailyLeaderboard config gp gU gD inc rk now).entries.length =
      ((dlUsers config gp gU).filter (fun u => u.isCompeting)).length ∧
    ∀ u ∈ dlUsers config gp gU, u.isCompeting = true →
      ∃ e ∈ (buildDailyLeaderboard config gp gU gD inc rk now).entries,
        e.username = u.wakawarsUsername ∧
        (dlCanView (dedupFirst config.friendIds) (dedupFirst gp) inc u
            (u.id == config.id) = false → e.status = .isPrivate) ∧
        (dlCanView (dedupFirst config.friendIds) (dedupFirst gp) inc u
            (u.id == config.id) = true →
          lastStatFor (dlDailyStats config gp gU gD rk) u.id = none →
          e.status = .error ∧ e.errorMsg = some "No stats synced yet") ∧
        (∀ s : DailyStatRow,
          dlCanView (dedupFirst config.friendIds) (dedupFirst gp) inc u
            (u.id == config.id) = true →
          lastStatFor (dlDailyStats config gp gU gD rk) u.id = some s →
          e.status = s.status) := by
  have hE := buildDailyLeaderboard_entries_eq config gp gU gD inc rk now
  constructor
  · rw [hE]
    rcases hss : dlSelfStat config gp gU gD inc rk with _ | s
    · rw [computeLeaderboard_length]
      exact List.length_map _ _
    · rw [List.length_map, computeLeaderboard_length]
      exact List.length_map _ _
  · intro u hu hcomp
    have hdmem : dlBuildDailyStat (dedupFirst config.friendIds) (dedupFirst gp) inc
        (dlDailyStats config gp gU gD rk) u (u.id == config.id) ∈
        dlStats config gp gU gD inc rk :=
      List.mem_map_of_mem _ (List.mem_filter.mpr ⟨hu, hcomp⟩)
    have hsortmem : dlBuildDailyStat (dedupFirst config.friendIds) (dedupFirst gp) inc
        (dlDailyStats config gp gU gD rk) u (u.id == config.id) ∈
        (computeLeaderboard (dlStats config gp gU gD inc rk)
          config.wakawarsUsername).map (fun e => e.toDailyStat) := by
      rw [computeLeaderboard_map_stat]
      exact (sortStats_perm _).mem_iff.mpr hdmem
    obtain ⟨ce, hce, hcestat⟩ := List.mem_map.mp hsortmem
    have hfields : ∃ e ∈ (buildDailyLeaderboard config gp gU gD inc rk now).entries,
        e.username = ce.username ∧ e.status = ce.status ∧ e.errorMsg = ce.errorMsg := by
      rw [hE]
      rcases hss : dlSelfStat config gp gU gD inc rk with _ | s
      · exact ⟨ce, hce, rfl, rfl, rfl⟩
      · exact ⟨{ ce with deltaSeconds := ce.totalSeconds - s.totalSeconds },
          List.mem_map_of_mem _ hce, rfl, rfl, rfl⟩
    obtain ⟨e, he, he1, he2, he3⟩ := hfields
    refine ⟨e, he, ?_, ?_, ?_, ?_⟩
    · rw [he1, congrArg DailyStat.username hcestat, dlBuildDailyStat_username]
    · intro hnv
      rw [he2, congrArg DailyStat.status hcestat,
        dlBuildDailyStat_private _ _ _ _ _ _ hnv]
    · intro hv hnone
      rw [he2, he3, congrArg DailyStat.status hcestat,
        congrArg DailyStat.errorMsg hcestat,
        dlBuildDailyStat_noStat _ _ _ _ _ _ hv hnone]
      exact ⟨rfl, rfl⟩
    · intro s hv hsome
      rw [he2, congrArg DailyStat.status hcestat,
        dlBuildDailyStat_some _ _ _ _ _ _ _ hv hsome]

/-- Store responses for the C8 witness. -/
def c8gU : List Nat → List StoredUser := fun _ =>
  [⟨1, "alice", none, .everyone, true⟩, ⟨2, "bob", none, .noOne, true⟩]

/-- Daily stat rows for the C8 witness. -/
def c8gD : String → List Nat → List DailyStatRow := fun _ _ =>
  [⟨1, 3600, .ok, none, 100⟩]

/-- Witness for C8: no competing user is dropped, and the non-viewable friend
`bob` gets a `private` row rather than being omitted. -/
theorem claim_c8_witness :
    (buildDailyLeaderboard ⟨1, "alice", none, [2]⟩ [] c8gU c8gD []
      (fun _ => "2024-05-01") 0).entries.length =
      ((dlUsers ⟨1, "alice", none, [2]⟩ [] c8gU).filter
        (fun u => u.isCompeting)).length ∧
    ∃ e ∈ (buildDailyLeaderboard ⟨1, "alice", none, [2]⟩ [] c8gU c8gD []
        (fun _ => "2024-05-01") 0).entries,
      e.username = "bob" ∧ e.status = .isPrivate := by
  refine ⟨(claim_c8 ⟨1, "alice", none, [2]⟩ [] c8gU c8gD []
    (fun _ => "2024-05-01") 0).1, ?_⟩
  obtain ⟨e, he, hu, hpriv, -, -⟩ :=
    (claim_c8 ⟨1, "alice", none, [2]⟩ [] c8gU c8gD [] (fun _ => "2024-05-01") 0).2
      ⟨2, "bob", none, .noOne, true⟩ (by decide) (by decide)
  exact ⟨e, he, hu, hpriv (by decide)⟩

/-! ## Backfill weekly bucket reconstruction (`backfill-achievements.ts`) -/

/-- `isLeapYear` as the Gregorian calendar (what `Date` validity implements). -/
def isLeapYear (y : Int) : Bool :=
  (y % 4 == 0 && y % 100 != 0) || y % 400 == 0

def daysInMonth (y m : Int) : Int :=
  if m = 2 then (if isLeapYear y then 29 else 28)
  else if m = 4 ∨ m = 6 ∨ m = 9 ∨ m = 11 then 30
  else 31

/-- `parseDateKey`: the `^\d{4}-\d{2}-\d{2}$` regex plus the `Date` validity
check (`new Date(dateKey + "T00:00:00.000Z")` is `NaN` exactly on
out-of-range month/day); the result is the UTC-midnight epoch day. -/
def parseDateKey (s : String) : Option Int :=
  match s.data with
  | [y1, y2, y3, y4, h1, m1, m2, h2, d1, d2] =>
    if y1.isDigit && y2.isDigit && y3.isDigit && y4.isDigit && (h1 == '-') &&
        m1.isDigit && m2.isDigit && (h2 == '-') && d1.isDigit && d2.isDigit then
      let y : Int := ((y1.toNat - 48) * 1000 + (y2.toNat - 48) * 100 +
        (y3.toNat - 48) * 10 + (y4.toNat - 48) : Nat)
      let m : Int := ((m1.toNat - 48) * 10 + (m2.toNat - 48) : Nat)
      let d : Int := ((d1.toNat - 48) * 10 + (d2.toNat - 48) : Nat)
      if 1 ≤ m ∧ m ≤ 12 ∧ 1 ≤ d ∧ d ≤ daysInMonth y m then
        some (daysFromCivil y m d)
      else none
    else none
  | _ => none

/-- `String(week).padStart(2, "0")` for the non-negative week number. -/
def pad2 (n : Int) : String :=
  if n < 10 then "0" ++ toString n else toString n

/-- `toIsoWeekKey` on a UTC-midnight date given in epoch days: shift to the
ISO week's Thursday, and number the week by
`Math.ceil((diffDays + 1) / 7)` from that year's Jan 1. -/
def toIsoWeekKey (days : Int) : String :=
  let day := if utcDayOfWeek days = 0 then 7 else utcDayOfWeek days
  let thursday := days + 4 - day
  let thuYear := (civilFromDays thursday).1
  let yearStart := daysFromCivil thuYear 1 1
  let week := (thursday - yearStart + 1 + 6) / 7
  toString thuYear ++ "-W" ++ pad2 week

/-- `toDailyStatus`. -/
def toDailyStatus (value : String) : DailyStatStatus :=
  if value = "ok" then .ok
  else if value = "private" then .isPrivate
  else if value = "not_found" then .notFound
  else .error

/-- A raw daily history row (`payload` is omitted: the claims under
verification do not concern the per-category payload). -/
structure DailyHistoryRow where
  user_id : Nat
  date_key : String
  total_seconds : Int
  status : String
  fetched_at : Int
deriving DecidableEq, Repr

structure WeekDayRecord where
  dateKey : String
  totalSeconds : Int
  fetchedAt : Int
deriving DecidableEq, Repr

structure WeeklyBucket where
  userId : Nat
  isoWeekKey : String
  rangeKey : String
  fetchedAt : Int
  days : List WeekDayRecord
deriving DecidableEq, Repr

def toWeekDay (r : DailyHistoryRow) : WeekDayRecord :=
  ⟨r.date_key, r.total_seconds, r.fetched_at⟩

/-- One iteration of the `dailyRows.forEach` loop building the bucket map.
The JS map key is the string `user_id + ":" + rangeKey + ":" + isoWeekKey`;
since the decimal id and the ISO week key are colon-free, that key is in
bijection with the component triple used here. -/
def bucketStep (weeklyRangeKey : String)
    (buckets : List ((Nat × String × String) × WeeklyBucket))
    (row : DailyHistoryRow) : List ((Nat × String × String) × WeeklyBucket) :=
  if toDailyStatus row.status ≠ .ok then buckets
  else
    match parseDateKey row.date_key with
    | none => buckets
    | some dayDate =>
      let isoWeekKey := toIsoWeekKey dayDate
      let key := (row.user_id, weeklyRangeKey, isoWeekKey)
      let day : WeekDayRecord := toWeekDay row
      match getJs buckets key with
      | none =>
        setJs buckets key
          ⟨row.user_id, isoWeekKey, weeklyRangeKey, row.fetched_at, [day]⟩
      | some existing =>
        setJs buckets key
          { existing with
            days := existing.days ++ [day]
            fetchedAt := if existing.fetchedAt < row.fetched_at then row.fetched_at
              else existing.fetchedAt }

/-- `createWeeklyBucketsFromDailyHistory`: fold the rows, then
`Array.from(buckets.values())`. -/
def createWeeklyBucketsFromDailyHistory (dailyRows : List DailyHistoryRow)
    (weeklyRangeKey : String) : List WeeklyBucket :=
  (dailyRows.foldl (bucketStep weeklyRangeKey) []).map (fun kv => kv.2)

/-- The arguments the backfill loop passes to `awardWeeklyAchievements` for
one bucket (the per-category `payload` again omitted). -/
structure WeeklyAwardArgs where
  userId : Nat
  rangeKey : String
  status : DailyStatStatus
  totalSeconds : Int
  dailyAverageSeconds : ℚ
  fetchedAt : Int
deriving DecidableEq, Repr

/-- The weekly-bucket award loop of `runAchievementsBackfill` (lines
525-571): skip a bucket whose first day key does not re-parse (`continue`),
sum the days, and award with `totalSeconds / 7` as the daily average. -/
def backfillWeeklyAwardArgs (dailyRows : List DailyHistoryRow)
    (weeklyRangeKey : String) : List WeeklyAwardArgs :=
  (createWeeklyBucketsFromDailyHistory dailyRows weeklyRangeKey).filterMap
    (fun bucket =>
      match bucket.days.head? with
      | none => none
      | some firstDay =>
        match parseDateKey firstDay.dateKey with
        | none => none
        | some _ =>
          let totalSeconds := bucket.days.foldl (fun sum day => sum + day.totalSeconds) 0
          some ⟨bucket.userId, bucket.rangeKey, .ok, totalSeconds,
            (totalSeconds : ℚ) / 7, bucket.fetchedAt⟩)

/-- The rows grouped into the bucket of `(uId, weekKey)`. -/
def rowMatches (uId : Nat) (weekKey : String) (r : DailyHistoryRow) : Bool :=
  decide (toDailyStatus r.status = .ok ∧ r.user_id = uId ∧
    (parseDateKey r.date_key).map toIsoWeekKey = some weekKey)

theorem setJs_of_not_mem {κ β : Type} [DecidableEq κ] (m : List (κ × β))
    (k : κ) (v : β) (h : k ∉ keysOf m) : setJs m k v = m ++ [(k, v)] := by
  induction m with
  | nil => rfl
  | cons kv rest ih =>
    rcases kv with ⟨k0, v0⟩
    have hk : k0 ≠ k := by
      intro he
      exact h (by simp [keysOf, he])
    unfold setJs
    rw [if_neg hk, ih (fun hm => h (by simp [keysOf] at hm ⊢; exact Or.inr hm))]
    rfl

theorem mem_setJs_iff {κ β : Type} [DecidableEq κ] (m : List (κ × β))
    (k : κ) (v : β) (kv : κ × β) (hnd : (keysOf m).Nodup) :
    kv ∈ setJs m k v ↔ (kv = (k, v) ∨ (kv ∈ m ∧ kv.1 ≠ k)) := by
  induction m with
  | nil =>
    simp only [setJs, List.mem_singleton, List.not_mem_nil, false_and, or_false]
  | cons kv0 rest ih =>
    rcases kv0 with ⟨k0, v0⟩
    have hnd1 := List.nodup_cons.mp hnd
    unfold setJs
    by_cases h : k0 = k
    · subst h
      rw [if_pos rfl]
      constructor
      · intro hmem
        rcases List.mem_cons.mp hmem with h1 | h1
        · exact Or.inl h1
        · refine Or.inr ⟨List.mem_cons_of_mem _ h1, ?_⟩
          intro he
          exact hnd1.1 (he ▸ List.mem_map_of_mem (fun kv => kv.1) h1)
      · intro hmem
        rcases hmem with h1 | ⟨h1, h2⟩
        · rw [h1]
          exact List.mem_cons_self _ _
        · rcases List.mem_cons.mp h1 with h3 | h3
          · exact absurd (by rw [h3]) h2
          · exact List.mem_cons_of_mem _ h3
    · rw [if_neg h]
      constructor
      · intro hmem
        rcases List.mem_cons.mp hmem with h1 | h1
        · refine Or.inr ⟨by rw [h1]; exact List.mem_cons_self _ _, ?_⟩
          rw [h1]
          exact fun he => h he
        · rcases (ih hnd1.2).mp h1 with h2 | ⟨h2, h3⟩
          · exact Or.inl h2
          · exact Or.inr ⟨List.mem_cons_of_mem _ h2, h3⟩
      · intro hmem
        rcases hmem with h1 | ⟨h1, h2⟩
        · exact List.mem_cons_of_mem _ ((ih hnd1.2).mpr (Or.inl h1))
        · rcases List.mem_cons.mp h1 with h3 | h3
          · rw [h3]
            exact List.mem_cons_self _ _
          · exact List.mem_cons_of_mem _ ((ih hnd1.2).mpr (Or.inr ⟨h3, h2⟩))

theorem if_lt_eq_max (a b : Int) : (if a < b then b else a) = max a b := by
  rcases le_or_lt b a with h | h
  · rw [if_neg (not_lt.mpr h), max_eq_left h]
  · rw [if_pos h, max_eq_right (le_of_lt h)]

theorem listMaxInt_append_singleton (l : List Int) (x : Int) (h : l ≠ []) :
    listMaxInt (l ++ [x]) = max (listMaxInt l) x := by
  cases l with
  | nil => exact absurd rfl h
  | cons y ys =>
    show (ys ++ [x]).foldl max y = max (ys.foldl max y) x
    rw [List.foldl_append]
    rfl

theorem rowMatches_iff (uId : Nat) (weekKey : String) (r : DailyHistoryRow) :
    rowMatches uId weekKey r = true ↔
      (toDailyStatus r.status = .ok ∧ r.user_id = uId ∧
        (parseDateKey r.date_key).map toIsoWeekKey = some weekKey) := by
  unfold rowMatches
  exact decide_eq_true_iff

theorem rowMatches_eq_false_iff (uId : Nat) (weekKey : String) (r : DailyHistoryRow) :
    rowMatches uId weekKey r = false ↔
      ¬(toDailyStatus r.status = .ok ∧ r.user_id = uId ∧
        (parseDateKey r.date_key).map toIsoWeekKey = some weekKey) := by
  unfold rowMatches
  exact decide_eq_false_iff_not

theorem rowMatches_false_of_not_ok (uId : Nat) (weekKey : String)
    (r : DailyHistoryRow) (hok : toDailyStatus r.status ≠ .ok) :
    rowMatches uId weekKey r = false :=
  (rowMatches_eq_false_iff uId weekKey r).mpr (fun hm => hok hm.1)

theorem rowMatches_false_of_parse_none (uId : Nat) (weekKey : String)
    (r : DailyHistoryRow) (hp : parseDateKey r.date_key = none) :
    rowMatches uId weekKey r = false :=
  (rowMatches_eq_false_iff uId weekKey r).mpr (fun hm => by
    have h3 := hm.2.2
    rw [hp] at h3
    exact Option.noConfusion h3)

theorem rowMatches_false_of_key_ne (rangeKey : String) (uId : Nat)
    (weekKey : String) (r : DailyHistoryRow) (dayDate : Int)
    (hparse : parseDateKey r.date_key = some dayDate)
    (hne : (r.user_id, rangeKey, toIsoWeekKey dayDate) ≠ (uId, rangeKey, weekKey)) :
    rowMatches uId weekKey r = false :=
  (rowMatches_eq_false_iff uId weekKey r).mpr (fun hm => by
    obtain ⟨-, hu, hw⟩ := hm
    rw [hparse] at hw
    have hw2 : toIsoWeekKey dayDate = weekKey := Option.some.inj hw
    exact hne (by rw [hu, hw2]))

/-- The invariant of the `dailyRows.forEach` fold: after processing `seen`,
every map entry is keyed by its bucket's components, carries exactly (and in
order) the processed ok rows of its `(user, ISO week)` group, has a
non-empty day list, and its `fetchedAt` is the maximum of its days; keys are
distinct; and every ok, parseable processed row has its bucket present. -/
def BucketInv (rangeKey : String)
    (acc : List ((Nat × String × String) × WeeklyBucket))
    (seen : List DailyHistoryRow) : Prop :=
  (∀ kv ∈ acc,
    kv.1 = (kv.2.userId, rangeKey, kv.2.isoWeekKey) ∧
    kv.2.rangeKey = rangeKey ∧
    kv.2.days = (seen.filter (rowMatches kv.2.userId kv.2.isoWeekKey)).map toWeekDay ∧
    kv.2.days ≠ [] ∧
    kv.2.fetchedAt = listMaxInt (kv.2.days.map (fun d => d.fetchedAt))) ∧
  (keysOf acc).Nodup ∧
  (∀ r ∈ seen, ∀ d : Int, toDailyStatus r.status = .ok →
    parseDateKey r.date_key = some d →
    (r.user_id, rangeKey, toIsoWeekKey d) ∈ keysOf acc)

theorem bucketStep_inv (rangeKey : String)
    (acc : List ((Nat × String × String) × WeeklyBucket))
    (seen : List DailyHistoryRow) (row : DailyHistoryRow)
    (hinv : BucketInv rangeKey acc seen) :
    BucketInv rangeKey (bucketStep rangeKey acc row) (seen ++ [row]) := by
  obtain ⟨h1, h2, h3⟩ := hinv
  by_cases hok : toDailyStatus row.status = .ok
  · cases hparse : parseDateKey row.date_key with
    | none =>
      have hstep : bucketStep rangeKey acc row = acc := by
        unfold bucketStep
        rw [if_neg (not_not_intro hok)]
        rw [hparse]
      rw [hstep]
      refine ⟨?_, h2, ?_⟩
      · intro kv hkv
        obtain ⟨ha, hb, hc, hd, he⟩ := h1 kv hkv
        refine ⟨ha, hb, ?_, hd, he⟩
        rw [List.filter_append]
        have hnil : List.filter (rowMatches kv.2.userId kv.2.isoWeekKey) [row] = [] := by
          simp [List.filter, rowMatches_false_of_parse_none _ _ _ hparse]
        rw [hnil, List.append_nil]
        exact hc
      · intro r hr d hok2 hparse2
        rcases List.mem_append.mp hr with hr | hr
        · exact h3 r hr d hok2 hparse2
        · rw [List.mem_singleton.mp hr] at hparse2
          rw [hparse] at hparse2
          exact Option.noConfusion hparse2
    | some dayDate =>
      cases hget : getJs acc (row.user_id, rangeKey, toIsoWeekKey dayDate) with
      | none =>
        have hkey_not : (row.user_id, rangeKey, toIsoWeekKey dayDate) ∉ keysOf acc :=
          (getJs_eq_none_iff acc _).mp hget
        have hstep : bucketStep rangeKey acc row =
            acc ++ [((row.user_id, rangeKey, toIsoWeekKey dayDate),
              ⟨row.user_id, toIsoWeekKey dayDate, rangeKey, row.fetched_at, [toWeekDay row]⟩)] := by
          unfold bucketStep
          rw [if_neg (not_not_intro hok)]
          rw [hparse]
          show (match getJs acc (row.user_id, rangeKey, toIsoWeekKey dayDate) with
            | none => setJs acc (row.user_id, rangeKey, toIsoWeekKey dayDate)
                ⟨row.user_id, toIsoWeekKey dayDate, rangeKey, row.fetched_at, [toWeekDay row]⟩
            | some existing => setJs acc (row.user_id, rangeKey, toIsoWeekKey dayDate)
                { existing with
                  days := existing.days ++ [toWeekDay row]
                  fetchedAt := if existing.fetchedAt < row.fetched_at then row.fetched_at
                    else existing.fetchedAt }) = _
          rw [hget]
          exact setJs_of_not_mem acc _ _ hkey_not
        rw [hstep]
        refine ⟨?_, ?_, ?_⟩
        · intro kv hkv
          rcases List.mem_append.mp hkv with hkv | hkv
          · obtain ⟨ha, hb, hc, hd, he⟩ := h1 kv hkv
            refine ⟨ha, hb, ?_, hd, he⟩
            rw [List.filter_append]
            have hne : (row.user_id, rangeKey, toIsoWeekKey dayDate) ≠
                (kv.2.userId, rangeKey, kv.2.isoWeekKey) := by
              intro he2
              exact hkey_not (by
                rw [he2, ← ha]
                exact List.mem_map_of_mem (fun kv => kv.1) hkv)
            have hnil : List.filter (rowMatches kv.2.userId kv.2.isoWeekKey) [row] = [] := by
              simp [List.filter, rowMatches_false_of_key_ne rangeKey _ _ _ _ hparse hne]
            rw [hnil, List.append_nil]
            exact hc
          · rw [List.mem_singleton.mp hkv]
            refine ⟨rfl, rfl, ?_, by simp, by simp [toWeekDay, listMaxInt]⟩
            rw [List.filter_append]
            have hseen_nil :
                seen.filter (rowMatches row.user_id (toIsoWeekKey dayDate)) = [] := by
              rw [List.filter_eq_nil]
              intro r hr hm
              obtain ⟨hok2, hu, hw⟩ := (rowMatches_iff _ _ _).mp hm
              cases hparse2 : parseDateKey r.date_key with
              | none =>
                rw [hparse2] at hw
                exact Option.noConfusion hw
              | some d2 =>
                rw [hparse2] at hw
                have hw2 : toIsoWeekKey d2 = toIsoWeekKey dayDate := Option.some.inj hw
                have := h3 r hr d2 hok2 hparse2
                rw [hw2, hu] at this
                exact hkey_not this
            have hrow_one :
                List.filter (rowMatches row.user_id (toIsoWeekKey dayDate)) [row] = [row] := by
              have hm : rowMatches row.user_id (toIsoWeekKey dayDate) row = true := by
                rw [rowMatches_iff]
                exact ⟨hok, rfl, by rw [hparse]; rfl⟩
              simp [List.filter, hm]
            rw [hseen_nil, hrow_one]
            rfl
        · have hkeys : keysOf (acc ++ [((row.user_id, rangeKey, toIsoWeekKey dayDate),
              (⟨row.user_id, toIsoWeekKey dayDate, rangeKey, row.fetched_at,
                [toWeekDay row]⟩ : WeeklyBucket))]) =
              keysOf acc ++ [(row.user_id, rangeKey, toIsoWeekKey dayDate)] := by
            unfold keysOf
            rw [List.map_append]
            rfl
          rw [hkeys, List.nodup_append]
          exact ⟨h2, List.nodup_singleton _, by
            intro a ha hb
            rw [List.mem_singleton.mp hb] at ha
            exact hkey_not ha⟩
        · intro r hr d hok2 hparse2
          have hkeys : keysOf (acc ++ [((row.user_id, rangeKey, toIsoWeekKey dayDate),
              (⟨row.user_id, toIsoWeekKey dayDate, rangeKey, row.fetched_at,
                [toWeekDay row]⟩ : WeeklyBucket))]) =
              keysOf acc ++ [(row.user_id, rangeKey, toIsoWeekKey dayDate)] := by
            unfold keysOf
            rw [List.map_append]
            rfl
          rw [hkeys]
          rcases List.mem_append.mp hr with hr | hr
          · exact List.mem_append_left _ (h3 r hr d hok2 hparse2)
          · rw [List.mem_singleton.mp hr]
            rw [List.mem_singleton.mp hr] at hparse2
            rw [hparse] at hparse2
            rw [Option.some.inj hparse2]
            exact List.mem_append_right _ (List.mem_singleton.mpr rfl)
      | some existing =>
        have hmem_ex : ((row.user_id, rangeKey, toIsoWeekKey dayDate), existing) ∈ acc :=
          mem_of_getJs_eq_some acc _ _ hget
        obtain ⟨hkey_eq, hrange_ex, hdays_ex, hne_ex, hfa_ex⟩ := h1 _ hmem_ex
        simp only [Prod.mk.injEq] at hkey_eq
        obtain ⟨hu_ex, -, hw_ex⟩ := hkey_eq
        have hkey_mem : (row.user_id, rangeKey, toIsoWeekKey dayDate) ∈ keysOf acc :=
          List.mem_map_of_mem (fun kv => kv.1) hmem_ex
        have hstep : bucketStep rangeKey acc row =
            setJs acc (row.user_id, rangeKey, toIsoWeekKey dayDate)
              { existing with
                days := existing.days ++ [toWeekDay row]
                fetchedAt := if existing.fetchedAt < row.fetched_at then row.fetched_at
                  else existing.fetchedAt } := by
          unfold bucketStep
          rw [if_neg (not_not_intro hok)]
          rw [hparse]
          show (match getJs acc (row.user_id, rangeKey, toIsoWeekKey dayDate) with
            | none => setJs acc (row.user_id, rangeKey, toIsoWeekKey dayDate)
                ⟨row.user_id, toIsoWeekKey dayDate, rangeKey, row.fetched_at, [toWeekDay row]⟩
            | some existing => setJs acc (row.user_id, rangeKey, toIsoWeekKey dayDate)
                { existing with
                  days := existing.days ++ [toWeekDay row]
                  fetchedAt := if existing.fetchedAt < row.fetched_at then row.fetched_at
                    else existing.fetchedAt }) = _
          rw [hget]
        rw [hstep]
        have hkeys2 : keysOf (setJs acc (row.user_id, rangeKey, toIsoWeekKey dayDate)
            { existing with
              days := existing.days ++ [toWeekDay row]
              fetchedAt := if existing.fetchedAt < row.fetched_at then row.fetched_at
                else existing.fetchedAt }) = keysOf acc := by
          rw [keysOf_setJs, if_pos hkey_mem]
        refine ⟨?_, by rw [hkeys2]; exact h2, ?_⟩
        · intro kv hkv
          rcases (mem_setJs_iff acc _ _ kv h2).mp hkv with hkv | ⟨hkv, hkv_ne⟩
          · rw [hkv]
            refine ⟨?_, hrange_ex, ?_, by simp, ?_⟩
            · show (row.user_id, rangeKey, toIsoWeekKey dayDate) =
                (existing.userId, rangeKey, existing.isoWeekKey)
              rw [hu_ex, hw_ex]
            · show existing.days ++ [toWeekDay row] =
                ((seen ++ [row]).filter
                  (rowMatches existing.userId existing.isoWeekKey)).map toWeekDay
              rw [List.filter_append]
              have hrow_one :
                  List.filter (rowMatches existing.userId existing.isoWeekKey) [row] =
                    [row] := by
                have hm : rowMatches existing.userId existing.isoWeekKey row = true := by
                  rw [rowMatches_iff]
                  exact ⟨hok, hu_ex, by rw [hparse, ← hw_ex]; rfl⟩
                simp [List.filter, hm]
              rw [hrow_one, List.map_append, ← hdays_ex]
              rfl
            · show (if existing.fetchedAt < row.fetched_at then row.fetched_at
                  else existing.fetchedAt) =
                listMaxInt (((existing.days ++ [toWeekDay row]).map
                  (fun d => d.fetchedAt)))
              rw [if_lt_eq_max, List.map_append]
              have hmapne : existing.days.map (fun d => d.fetchedAt) ≠ [] := by
                intro hnil
                exact hne_ex (List.map_eq_nil.mp hnil)
              rw [show (List.map (fun d => d.fetchedAt) [toWeekDay row]) =
                  [row.fetched_at] from rfl]
              rw [listMaxInt_append_singleton _ _ hmapne, hfa_ex]
          · obtain ⟨ha, hb, hc, hd, he⟩ := h1 kv hkv
            refine ⟨ha, hb, ?_, hd, he⟩
            rw [List.filter_append]
            have hne : (row.user_id, rangeKey, toIsoWeekKey dayDate) ≠
                (kv.2.userId, rangeKey, kv.2.isoWeekKey) := by
              intro he2
              rw [← ha] at he2
              exact hkv_ne he2.symm
            have hnil : List.filter (rowMatches kv.2.userId kv.2.isoWeekKey) [row] = [] := by
              simp [List.filter, rowMatches_false_of_key_ne rangeKey _ _ _ _ hparse hne]
            rw [hnil, List.append_nil]
            exact hc
        · intro r hr d hok2 hparse2
          rw [hkeys2]
          rcases List.mem_append.mp hr with hr | hr
          · exact h3 r hr d hok2 hparse2
          · rw [List.mem_singleton.mp hr]
            rw [List.mem_singleton.mp hr] at hparse2
            rw [hparse] at hparse2
            rw [← Option.some.inj hparse2]
            exact hkey_mem
  · have hstep : bucketStep rangeKey acc row = acc := by
      unfold bucketStep
      rw [if_pos hok]
    rw [hstep]
    refine ⟨?_, h2, ?_⟩
    · intro kv hkv
      obtain ⟨ha, hb, hc, hd, he⟩ := h1 kv hkv
      refine ⟨ha, hb, ?_, hd, he⟩
      rw [List.filter_append]
      have hnil : List.filter (rowMatches kv.2.userId kv.2.isoWeekKey) [row] = [] := by
        simp [List.filter, rowMatches_false_of_not_ok _ _ _ hok]
      rw [hnil, List.append_nil]
      exact hc
    · intro r hr d hok2 hparse2
      rcases List.mem_append.mp hr with hr | hr
      · exact h3 r hr d hok2 hparse2
      · rw [List.mem_singleton.mp hr] at hok2
        exact absurd hok2 hok

theorem bucketFold_inv (rangeKey : String) :
    ∀ (rows : List DailyHistoryRow)
      (acc : List ((Nat × String × String) × WeeklyBucket))
      (seen : List DailyHistoryRow),
      BucketInv rangeKey acc seen →
      BucketInv rangeKey (rows.foldl (bucketStep rangeKey) acc) (seen ++ rows) := by
  intro rows
  induction rows with
  | nil =>
    intro acc seen h
    simpa using h
  | cons row rest ih =>
    intro acc seen h
    have h2 := bucketStep_inv rangeKey acc seen row h
    have h3 := ih (bucketStep rangeKey acc row) (seen ++ [row]) h2
    rw [List.append_assoc] at h3
    simpa using h3

theorem createWeeklyBuckets_inv (rows : List DailyHistoryRow) (rangeKey : String) :
    BucketInv rangeKey (rows.foldl (bucketStep rangeKey) []) rows := by
  have hbase : BucketInv rangeKey [] [] := by
    unfold BucketInv
    refine ⟨?_, List.nodup_nil, ?_⟩
    · intro kv hkv
      cases hkv
    · intro r hr
      cases hr
  have h := bucketFold_inv rangeKey rows [] [] hbase
  simpa using h

theorem filterMap_eq_map_of_forall {α β : Type} (l : List α) (f : α → Option β)
    (g : α → β) (h : ∀ x ∈ l, f x = some (g x)) : l.filterMap f = l.map g := by
  induction l with
  | nil => rfl
  | cons a l ih =>
    rw [List.filterMap_cons, h a (List.mem_cons_self _ _), List.map_cons,
      ih (fun x hx => h x (List.mem_cons_of_mem _ hx))]

/-- C9: over any daily history and weekly range key, the backfill's weekly
reconstruction yields, per bucket, exactly the ok-status parseable rows of
one `(user, ISO week)` group (in input order), with `fetchedAt` the maximum
`fetched_at` among the bucket's days; every ok parseable row lands in a
bucket of its user and ISO week; and the weekly award loop awards every
bucket with `totalSeconds` the sum of its days' seconds, `dailyAverageSeconds`
that sum divided by 7, and the bucket's `fetchedAt`. -/
theorem claim_c9 (rows : List DailyHistoryRow) (rangeKey : String) :
    (∀ b ∈ createWeeklyBucketsFromDailyHistory rows rangeKey,
      b.rangeKey = rangeKey ∧
      b.days = (rows.filter (rowMatches b.userId b.isoWeekKey)).map toWeekDay ∧
      b.days ≠ [] ∧
      b.fetchedAt = listMaxInt (b.days.map (fun d => d.fetchedAt))) ∧
    (∀ r ∈ rows, ∀ d : Int, toDailyStatus r.status = .ok →
      parseDateKey r.date_key = some d →
      ∃ b ∈ createWeeklyBucketsFromDailyHistory rows rangeKey,
        b.userId = r.user_id ∧ b.isoWeekKey = toIsoWeekKey d) ∧
    backfillWeeklyAwardArgs rows rangeKey =
      (createWeeklyBucketsFromDailyHistory rows rangeKey).map (fun b =>
        ⟨b.userId, b.rangeKey, .ok,
          b.days.foldl (fun sum day => sum + day.totalSeconds) 0,
          ((b.days.foldl (fun sum day => sum + day.totalSeconds) 0 : Int) : ℚ) / 7,
          b.fetchedAt⟩) := by
  obtain ⟨h1, h2, h3⟩ := createWeeklyBuckets_inv rows rangeKey
  have hbucket : ∀ b ∈ createWeeklyBucketsFromDailyHistory rows rangeKey,
      b.rangeKey = rangeKey ∧
      b.days = (rows.filter (rowMatches b.userId b.isoWeekKey)).map toWeekDay ∧
      b.days ≠ [] ∧
      b.fetchedAt = listMaxInt (b.days.map (fun d => d.fetchedAt)) := by
    intro b hb
    unfold createWeeklyBucketsFromDailyHistory at hb
    obtain ⟨kv, hkv, hkv2⟩ := List.mem_map.mp hb
    obtain ⟨-, hbr, hbd, hbn, hbf⟩ := h1 kv hkv
    rw [hkv2] at hbr hbd hbn hbf
    exact ⟨hbr, hbd, hbn, hbf⟩
  refine ⟨hbucket, ?_, ?_⟩
  · intro r hr d hok hparse
    have hkey := h3 r hr d hok hparse
    obtain ⟨kv, hkv, hkv2⟩ := List.mem_map.mp hkey
    obtain ⟨ha, -, -, -, -⟩ := h1 kv hkv
    rw [hkv2] at ha
    simp only [Prod.mk.injEq] at ha
    obtain ⟨hu, -, hw⟩ := ha
    refine ⟨kv.2, List.mem_map_of_mem (fun kv => kv.2) hkv, ?_, ?_⟩
    · exact hu.symm
    · exact hw.symm
  · unfold backfillWeeklyAwardArgs
    apply filterMap_eq_map_of_forall
    intro b hb
    obtain ⟨hbr, hbd, hbn, hbf⟩ := hbucket b hb
    cases hdays : b.days with
    | nil => exact absurd hdays hbn
    | cons d0 ds =>
      have hd0 : d0 ∈ b.days := by
        rw [hdays]
        exact List.mem_cons_self _ _
      rw [hbd] at hd0
      obtain ⟨r0, hr0, hr0d⟩ := List.mem_map.mp hd0
      have hr0m := List.of_mem_filter hr0
      obtain ⟨-, -, hw0⟩ := (rowMatches_iff _ _ _).mp hr0m
      cases hp0 : parseDateKey r0.date_key with
      | none =>
        rw [hp0] at hw0
        exact Option.noConfusion hw0
      | some pd0 =>
        have hdk : parseDateKey d0.dateKey = some pd0 := by
          rw [← hr0d]
          exact hp0
        simp only [hdays, List.head?_cons, hdk]

def c9Rows : List DailyHistoryRow :=
  [⟨7, "2024-01-03", 3600, "ok", 100⟩,
   ⟨7, "2024-01-04", 7200, "ok", 250⟩,
   ⟨7, "2024-01-04", 0, "private", 300⟩,
   ⟨9, "bad-dates!", 50, "ok", 10⟩]

theorem claim_c9_witness :
    (backfillWeeklyAwardArgs c9Rows "2024-01-01_2024-01-07" =
      (createWeeklyBucketsFromDailyHistory c9Rows "2024-01-01_2024-01-07").map (fun b =>
        ⟨b.userId, b.rangeKey, .ok,
          b.days.foldl (fun sum day => sum + day.totalSeconds) 0,
          ((b.days.foldl (fun sum day => sum + day.totalSeconds) 0 : Int) : ℚ) / 7,
          b.fetchedAt⟩)) ∧
    ∃ b ∈ createWeeklyBucketsFromDailyHistory c9Rows "2024-01-01_2024-01-07",
      b.userId = 7 ∧ b.isoWeekKey = toIsoWeekKey 19725 :=
  ⟨(claim_c9 c9Rows "2024-01-01_2024-01-07").2.2,
   (claim_c9 c9Rows "2024-01-01_2024-01-07").2.1
     ⟨7, "2024-01-03", 3600, "ok", 100⟩ (by decide) 19725 (by decide) (by decide)⟩
